import Mathlib

/-!
Shallow embedding of the aio event loop core, translated from
src/aio/loop/pure.py (class BaseEventLoop) and src/aio/interfaces.py
(dataclass Handle), with theorems settling the specification claims.

Modelling conventions: times are rationals; the clock is an arbitrary
stream of readings consumed one now() call at a time; callbacks are
natural-number identifiers interpreted through a small effect table
(return, raise an Exception, raise a non-Exception BaseException,
call call_soon, cancel a handle, read the running-loop context
variable); Handle objects are aliased through an identifier map so that
cancel() performed through one reference is seen by the scheduler.
Logging calls (structlog) and MeasureElapsed blocks are omitted: they
do not affect control flow or scheduling state.

The timer scheduler lives in aio/components/scheduler.py, which is not
part of the sources at hand; its operations (enqueue, pop_pending,
next_event) are modelled from the spec, section 4.2, as marked on the
corresponding definitions.
-/

/-- Handle, from src/aio/interfaces.py: optional absolute deadline,
callback, positional arguments, cancelled flag, user context map.
The callback is an identifier into the effect table, the arguments are
abstracted to a list of naturals, the context map to a list of naturals. -/
structure Handle where
  when : Option ℚ
  callback : ℕ
  args : List ℕ
  cancelled : Bool
  context : List ℕ
deriving DecidableEq, Repr

/-- Handle.cancel from src/aio/interfaces.py: sets the cancelled flag. -/
def Handle.cancel (h : Handle) : Handle :=
  { h with cancelled := true }

/-- Modelled from the spec: a timer-queue entry of the scheduler
(aio/components/scheduler.py, not among the sources): the heap key
(deadline, with none standing for minus infinity, the key of
no-deadline handles), the insertion-order tiebreaker, and the handle
identifier. -/
structure SchedEntry where
  key : Option ℚ
  seq : ℕ
  hid : ℕ
deriving DecidableEq, Repr

/-- Key order of the timer queue: none (minus infinity, a no-deadline
handle) sorts before every proper deadline. -/
def keyLE : Option ℚ → Option ℚ → Bool
  | none, _ => true
  | some _, none => false
  | some a, some b => decide (a ≤ b)

/-- Ordered insertion keeping entries sorted by (key, seq); a fresh
entry goes after all entries with an equal key, so equal-deadline
handles stay in insertion order. This realises the min-heap of the
scheduler as a sorted list. -/
def insertEntry (e : SchedEntry) : List SchedEntry → List SchedEntry
  | [] => [e]
  | f :: rest => if keyLE f.key e.key then f :: insertEntry e rest else e :: f :: rest

/-- Fallback value of the handle map lookup for an absent identifier. -/
def dummyHandle : Handle :=
  { when := none, callback := 0, args := [], cancelled := false, context := [] }

/-- Lookup of a handle object by identifier (the identifier map models
Python object aliasing between the scheduler and user code). -/
def getHandle : List (ℕ × Handle) → ℕ → Handle
  | [], _ => dummyHandle
  | p :: rest, hid => if p.1 = hid then p.2 else getHandle rest hid

/-- In-place update of the handle object named by an identifier. -/
def setHandle (hs : List (ℕ × Handle)) (hid : ℕ) (h : Handle) : List (ℕ × Handle) :=
  hs.map (fun p => if p.1 = hid then (p.1, h) else p)

/-- State owned by one BaseEventLoop instance: the scheduler heap, the
handle object map with its next fresh identifier, the enqueue
tiebreaker counter, the clock stream position, and the cached
Networking instance of create_networking with its next fresh
instance identifier. -/
structure LoopState where
  sched : List SchedEntry
  handles : List (ℕ × Handle)
  nextHid : ℕ
  nextSeq : ℕ
  clkIdx : ℕ
  cachedNet : Option ℕ
  nextNetId : ℕ
deriving DecidableEq, Repr

/-- Effect table entries interpreting user callbacks: return normally,
raise an Exception, raise a non-Exception BaseException (such as the
keyboard-interrupt cancellation), call call_soon on the loop with a
target and a user context, cancel a handle through an aliased
reference, or read the running-loop context variable. -/
inductive CbAct where
  | ret
  | raiseE
  | raiseB
  | callSoon (target : ℕ) (ctx : List ℕ)
  | cancelH (hid : ℕ)
  | observe
deriving DecidableEq, Repr

/-- The contextvars context: the single slot modelled is the
_running_loop context variable of aio/loop/_priv.py, holding the
identifier of the running loop. -/
structure Ctx where
  runningLoop : Option ℕ
deriving DecidableEq, Repr

/-- Static configuration of a loop run: the clock reading stream and
resolution, the selector behaviour (the list of fired (callback, fd,
events) triples returned by select for a given timeout), the loop
identifier stored in the running-loop slot, the callback effect table,
the ambient context captured by copy_context, whether any I/O is
registered with the selector (recorded for the statements only: the
code never consults it), and the root-task completion test of run. -/
structure LoopCfg where
  clock : ℕ → ℚ
  res : ℚ
  selectFn : Option ℚ → List (ℕ × ℕ × ℕ)
  loopId : ℕ
  prog : ℕ → CbAct
  ambient : Ctx
  ioRegistered : Bool
  doneFn : LoopState → Bool

/-- Modelled from the spec: Scheduler.enqueue (aio/components/
scheduler.py, not among the sources), spec section 4.2: store the
handle under the key (deadline, sequence), no-deadline handles keyed
minus infinity; returns the fresh handle identifier. -/
def enqueue (s : LoopState) (h : Handle) : LoopState × ℕ :=
  let hid := s.nextHid
  ({ s with
      sched := insertEntry { key := h.when, seq := s.nextSeq, hid := hid } s.sched,
      handles := (hid, h) :: s.handles,
      nextHid := hid + 1,
      nextSeq := s.nextSeq + 1 }, hid)

/-- BaseEventLoop.call_soon from src/aio/loop/pure.py: enqueue a
Handle with no deadline, cancelled false, and the given context (or
the empty map); returns the handle. The debug log is omitted. -/
def call_soon (s : LoopState) (target : ℕ) (args : List ℕ)
    (context : Option (List ℕ)) : LoopState × ℕ :=
  enqueue s { when := none, callback := target, args := args,
              cancelled := false, context := context.getD [] }

/-- BaseEventLoop.call_later from src/aio/loop/pure.py: a zero timeout
delegates to call_soon; otherwise read the clock once, enqueue a
Handle deadlined at now() plus the timeout, and return it. -/
def call_later (cfg : LoopCfg) (s : LoopState) (timeout : ℚ) (target : ℕ)
    (args : List ℕ) (context : Option (List ℕ)) : LoopState × ℕ :=
  if timeout = 0 then call_soon s target args context
  else
    let callAt := cfg.clock s.clkIdx + timeout
    let s1 := { s with clkIdx := s.clkIdx + 1 }
    enqueue s1 { when := some callAt, callback := target, args := args,
                 cancelled := false, context := context.getD [] }

/-- Cancellation of the handle object named by an identifier, as
performed by user code holding the Handle returned from call_soon or
call_later. -/
def cancelHandleIn (s : LoopState) (hid : ℕ) : LoopState :=
  { s with handles := setHandle s.handles hid ((getHandle s.handles hid).cancel) }

/-- Modelled from the spec: Scheduler.pop_pending (aio/components/
scheduler.py, not among the sources), spec section 4.2: remove every
entry whose key is at most the cutoff and return, in heap order, the
identifiers of the non-cancelled ones; cancelled entries are dropped
silently. -/
def pop_pending (s : LoopState) (upTo : ℚ) : List ℕ × LoopState :=
  let due := s.sched.filter (fun e => keyLE e.key (some upTo))
  let rest := s.sched.filter (fun e => !(keyLE e.key (some upTo)))
  ((due.filter (fun e => !(getHandle s.handles e.hid).cancelled)).map (fun e => e.hid),
   { s with sched := rest })

/-- Modelled from the spec: Scheduler.next_event (aio/components/
scheduler.py, not among the sources), spec section 4.2: the key of the
minimum non-cancelled entry (the heap being the sorted list, the first
non-cancelled entry), none when no such entry exists. The lazy
discarding of cancelled top entries is observationally a read-only
skip here, since pop_pending removes them anyway. -/
def next_event (s : LoopState) : Option (Option ℚ) :=
  ((s.sched.filter (fun e => !(getHandle s.handles e.hid).cancelled)).head?).map
    (fun e => e.key)

/-- Entry of the create_networking async context manager from
src/aio/loop/pure.py: when an instance is cached, yield it (no
creation); otherwise run the networking factory, obtaining a fresh
instance identifier, and cache it. Returns the instance, whether this
use created it, and the new state. -/
def create_networking_enter (s : LoopState) : ℕ × Bool × LoopState :=
  match s.cachedNet with
  | some n => (n, false, s)
  | none =>
      let nid := s.nextNetId
      (nid, true, { s with cachedNet := some nid, nextNetId := nid + 1 })

/-- Exit of the create_networking async context manager from
src/aio/loop/pure.py: the use that created the instance clears the
cache in its finally block (and the factory context closes); a use
that merely reused the cached instance changes nothing. -/
def create_networking_exit (s : LoopState) (created : Bool) : LoopState :=
  if created then { s with cachedNet := none } else s

/-- Empty loop state: nothing scheduled, no handles, fresh counters. -/
def s0 : LoopState :=
  { sched := [], handles := [], nextHid := 0, nextSeq := 0, clkIdx := 0,
    cachedNet := none, nextNetId := 0 }

/-- Base concrete configuration for witnesses: constant zero clock,
zero resolution, a selector that never fires, every callback returns
normally. -/
def cfg0 : LoopCfg :=
  { clock := fun _ => 0, res := 0, selectFn := fun _ => [], loopId := 7,
    prog := fun _ => CbAct.ret, ambient := { runningLoop := none },
    ioRegistered := false, doneFn := fun _ => false }

theorem getHandle_cons_self (hs : List (ℕ × Handle)) (hid : ℕ) (h : Handle) :
    getHandle ((hid, h) :: hs) hid = h := by
  simp [getHandle]

theorem getHandle_cons_ne (hs : List (ℕ × Handle)) (hid hid2 : ℕ) (h : Handle)
    (hne : hid ≠ hid2) : getHandle ((hid, h) :: hs) hid2 = getHandle hs hid2 := by
  simp [getHandle, hne]

/-- C10: Handle.cancel is idempotent and mutates only the cancelled
flag: after any number of cancel calls the flag is true and the when,
callback, args and context fields keep their construction values. -/
theorem c10_cancel_idempotent (h : Handle) :
    (h.cancel).cancel = h.cancel ∧
    (h.cancel).cancelled = true ∧
    (h.cancel).when = h.when ∧
    (h.cancel).callback = h.callback ∧
    (h.cancel).args = h.args ∧
    (h.cancel).context = h.context :=
  ⟨rfl, rfl, rfl, rfl, rfl, rfl⟩

/-- C8: call_later with zero delay delegates to call_soon (producing a
no-deadline handle); with any other delay it enqueues a handle whose
deadline is the clock reading plus the delay; call_soon always
enqueues a handle with no deadline. -/
theorem c8_call_later_delegation (cfg : LoopCfg) (s : LoopState) (t : ℚ)
    (tgt : ℕ) (args : List ℕ) (c : Option (List ℕ)) :
    (t = 0 → call_later cfg s t tgt args c = call_soon s tgt args c) ∧
    (t ≠ 0 →
      (getHandle (call_later cfg s t tgt args c).1.handles
          (call_later cfg s t tgt args c).2).when
        = some (cfg.clock s.clkIdx + t)) ∧
    (getHandle (call_soon s tgt args c).1.handles (call_soon s tgt args c).2).when
      = none := by
  refine ⟨fun h0 => by simp [call_later, h0], fun hne => ?_, ?_⟩
  · simp [call_later, if_neg hne, enqueue, getHandle_cons_self]
  · simp [call_soon, enqueue, getHandle_cons_self]

/-- C8 witness: concrete evaluation at delay zero and delay one. -/
theorem c8_call_later_delegation_witness :
    ((0 : ℚ) = 0 ∧ call_later cfg0 s0 0 5 [] none = call_soon s0 5 [] none) ∧
    ((1 : ℚ) ≠ 0 ∧
      (getHandle (call_later cfg0 s0 1 5 [] none).1.handles
          (call_later cfg0 s0 1 5 [] none).2).when = some (cfg0.clock s0.clkIdx + 1)) :=
  ⟨⟨rfl, (c8_call_later_delegation cfg0 s0 0 5 [] none).1 rfl⟩,
   ⟨by norm_num, (c8_call_later_delegation cfg0 s0 1 5 [] none).2.1 (by norm_num)⟩⟩

/-- C4 counterexample: the first use of create_networking creates
instance 0 and, on exit of that use, the cache is cleared; a second
use then creates the distinct fresh instance 1 within the same loop
lifetime, refuting that one instance is reused for all subsequent
create_networking calls for the remainder of the loop lifetime. -/
theorem c4_fresh_instance_counterexample :
    (create_networking_enter s0).1 = 0 ∧
    (create_networking_enter s0).2.1 = true ∧
    (create_networking_enter
        (create_networking_exit (create_networking_enter s0).2.2
          (create_networking_enter s0).2.1)).1 = 1 ∧
    (1 : ℕ) ≠ 0 := by
  refine ⟨rfl, rfl, rfl, by decide⟩

/-- C4 amended: the Networking instance is created lazily and reused
by every create_networking use made while the creating use is still
open (the cached instance is returned unchanged); when the creating
use exits, the cache is cleared, so a later use creates a fresh
instance. -/
theorem c4_networking_scoped_reuse (s : LoopState) (n : ℕ) :
    (s.cachedNet = some n → create_networking_enter s = (n, false, s)) ∧
    (s.cachedNet = none →
      (create_networking_enter s).1 = s.nextNetId ∧
      (create_networking_enter s).2.1 = true ∧
      (create_networking_enter s).2.2.cachedNet = some s.nextNetId) ∧
    (create_networking_exit s true).cachedNet = none ∧
    create_networking_exit s false = s := by
  refine ⟨fun hc => by simp [create_networking_enter, hc],
          fun hc => by simp [create_networking_enter, hc],
          by simp [create_networking_exit],
          by simp [create_networking_exit]⟩

/-- C4 amended witness: concrete evaluation of the cached-reuse and
clear-on-exit behaviour. -/
theorem c4_networking_scoped_reuse_witness :
    ({ s0 with cachedNet := some 3 }.cachedNet = some 3 ∧
      create_networking_enter { s0 with cachedNet := some 3 }
        = (3, false, { s0 with cachedNet := some 3 })) ∧
    (create_networking_exit { s0 with cachedNet := some 3 } true).cachedNet = none :=
  ⟨⟨rfl, (c4_networking_scoped_reuse { s0 with cachedNet := some 3 } 3).1 rfl⟩,
   (c4_networking_scoped_reuse { s0 with cachedNet := some 3 } 3).2.2.1⟩

/-- Dispatch phases of one loop step: early timers, I/O callbacks,
late timers. -/
inductive Phase where
  | early
  | ioCb
  | late
deriving DecidableEq, Repr

/-- Observable events of a loop step: the select call with the timeout
passed to it, an actual callback invocation (with the phase and, for
timer handles, the handle identifier), the silent drop of a cancelled
handle at dispatch, an exception-handler invocation (with the callback,
the keyword context passed along, and whether the error was a
non-Exception BaseException), and the value read from the running-loop
slot by an observing callback. -/
inductive Ev where
  | selectCall (timeout : Option ℚ)
  | invoke (ph : Phase) (hid : Option ℕ) (cb : ℕ)
  | skipCancelled (ph : Phase) (hid : ℕ)
  | handlerCall (cb : ℕ) (kw : List ℕ) (isBase : Bool)
  | observed (cb : ℕ) (slot : Option ℕ)
deriving DecidableEq, Repr

/-- Outcome of running one callback body: normal return, an Exception,
or a non-Exception BaseException. -/
inductive Outcome where
  | normal
  | excE
  | excB
deriving DecidableEq, Repr

/-- Interpretation of one callback body through the effect table;
returns the new loop state, the (possibly updated) context, the events
emitted by the body, and the outcome. -/
def runCbBody (cfg : LoopCfg) (s : LoopState) (ctx : Ctx) (cb : ℕ) :
    LoopState × Ctx × List Ev × Outcome :=
  match cfg.prog cb with
  | CbAct.ret => (s, ctx, [], Outcome.normal)
  | CbAct.raiseE => (s, ctx, [], Outcome.excE)
  | CbAct.raiseB => (s, ctx, [], Outcome.excB)
  | CbAct.callSoon t c => ((call_soon s t [] (some c)).1, ctx, [], Outcome.normal)
  | CbAct.cancelH hid => (cancelHandleIn s hid, ctx, [], Outcome.normal)
  | CbAct.observe => (s, ctx, [Ev.observed cb ctx.runningLoop], Outcome.normal)

/-- BaseEventLoop._invoke_callback composed with
_invoke_callback_within_context from src/aio/loop/pure.py: run the
callback inside the given context with the running-loop slot set to
the loop, restoring the previous slot value in the finally block; an
Exception is routed to the exception handler (with the callback and
the keyword context) and swallowed; a non-Exception BaseException is
routed to the handler and then re-raised (the returned flag). The
phase and optional handle identifier are trace instrumentation only. -/
def invoke_callback (cfg : LoopCfg) (s : LoopState) (ctx : Ctx) (ph : Phase)
    (ohid : Option ℕ) (cb : ℕ) (kw : List ℕ) : LoopState × Ctx × List Ev × Bool :=
  let prev := ctx.runningLoop
  let ctx1 : Ctx := { runningLoop := some cfg.loopId }
  match runCbBody cfg s ctx1 cb with
  | (s2, ctx2, evs, out) =>
      let ctx3 : Ctx := { ctx2 with runningLoop := prev }
      match out with
      | Outcome.normal => (s2, ctx3, Ev.invoke ph ohid cb :: evs, false)
      | Outcome.excE =>
          (s2, ctx3, (Ev.invoke ph ohid cb :: evs) ++ [Ev.handlerCall cb kw false], false)
      | Outcome.excB =>
          (s2, ctx3, (Ev.invoke ph ohid cb :: evs) ++ [Ev.handlerCall cb kw true], true)

/-- BaseEventLoop._invoke_handle from src/aio/loop/pure.py: a handle
whose cancelled flag is set at dispatch is dropped with no callback
invocation; otherwise its callback is invoked with its args and no
keyword context (the user context of the handle is not forwarded). -/
def invoke_handle (cfg : LoopCfg) (s : LoopState) (ctx : Ctx) (ph : Phase)
    (hid : ℕ) : LoopState × Ctx × List Ev × Bool :=
  if (getHandle s.handles hid).cancelled then
    (s, ctx, [Ev.skipCancelled ph hid], false)
  else
    invoke_callback cfg s ctx ph (some hid) (getHandle s.handles hid).callback []

/-- Dispatch loop over a batch of timer handles (the early or late for
loop of run_step); a re-raised BaseException aborts the remainder of
the batch. -/
def dispatchHandles (cfg : LoopCfg) (ph : Phase) :
    List ℕ → LoopState → Ctx → LoopState × Ctx × List Ev × Bool
  | [], s, ctx => (s, ctx, [], false)
  | hid :: rest, s, ctx =>
      match invoke_handle cfg s ctx ph hid with
      | (s1, c1, e1, true) => (s1, c1, e1, true)
      | (s1, c1, e1, false) =>
          match dispatchHandles cfg ph rest s1 c1 with
          | (s2, c2, e2, ab) => (s2, c2, e1 ++ e2, ab)

/-- Dispatch loop over the (callback, fd, events) triples returned by
select (the I/O for loop of run_step); each callback is invoked with
the keyword context naming the fd and events. -/
def dispatchFired (cfg : LoopCfg) :
    List (ℕ × ℕ × ℕ) → LoopState → Ctx → LoopState × Ctx × List Ev × Bool
  | [], s, ctx => (s, ctx, [], false)
  | (cb, fd, ev) :: rest, s, ctx =>
      match invoke_callback cfg s ctx Phase.ioCb none cb [fd, ev] with
      | (s1, c1, e1, true) => (s1, c1, e1, true)
      | (s1, c1, e1, false) =>
          match dispatchFired cfg rest s1 c1 with
          | (s2, c2, e2, ab) => (s2, c2, e1 ++ e2, ab)

/-- Selector-timeout computation of run_step from src/aio/loop/pure.py:
a non-empty early batch gives timeout zero; otherwise no next scheduler
event gives no timeout (block indefinitely); otherwise the distance
from a fresh clock reading to the next event, clamped at zero. A next
event keyed minus infinity (impossible after the early pop) would give
a negative distance, hence zero after the clamp. -/
def computeWait (cfg : LoopCfg) (early : List ℕ) (ne : Option (Option ℚ))
    (s : LoopState) : Option ℚ × LoopState :=
  if early.isEmpty then
    match ne with
    | none => (none, s)
    | some none => (some 0, s)
    | some (some d) =>
        let nowv := cfg.clock s.clkIdx
        (some (max 0 (d - nowv)), { s with clkIdx := s.clkIdx + 1 })
  else (some 0, s)

/-- First half of run_step from src/aio/loop/pure.py, up to the select
call: read the clock, pop the early batch at the cutoff now plus
resolution, and compute the selector timeout from the batch and the
next scheduler event. Returns the batch, the timeout, and the state. -/
def stepPre (cfg : LoopCfg) (s : LoopState) : List ℕ × Option ℚ × LoopState :=
  let t0 := cfg.clock s.clkIdx
  let sA := { s with clkIdx := s.clkIdx + 1 }
  match pop_pending sA (t0 + cfg.res) with
  | (early, sB) =>
      match computeWait cfg early (next_event sB) sB with
      | (w, sC) => (early, w, sC)

/-- Continuation of run_step after the select call: read the clock once
more (the after-select reading) to fix the late cutoff as that reading
plus the resolution. Returns the early batch, the timeout, the late
cutoff, and the state. -/
def stepPre2 (cfg : LoopCfg) (s : LoopState) :
    List ℕ × Option ℚ × ℚ × LoopState :=
  match stepPre cfg s with
  | (early, w, sC) =>
      (early, w, cfg.clock sC.clkIdx + cfg.res,
       { sC with clkIdx := sC.clkIdx + 1 })

/-- Early and I/O dispatch of run_step: the early timer batch in the
captured ambient context, then the fired I/O callbacks; an abort (a
re-raised BaseException) skips everything that follows. -/
def stepEarlyFired (cfg : LoopCfg) (early : List ℕ) (fired : List (ℕ × ℕ × ℕ))
    (sD : LoopState) : LoopState × Ctx × List Ev × Bool :=
  match dispatchHandles cfg Phase.early early sD cfg.ambient with
  | (sE, cE, evE, true) => (sE, cE, evE, true)
  | (sE, cE, evE, false) =>
      match dispatchFired cfg fired sE cE with
      | (sF, cF, evF, ab) => (sF, cF, evE ++ evF, ab)

/-- Dispatch half of run_step: early timers, I/O callbacks, then the
late batch popped at the late cutoff and dispatched. -/
def stepBody (cfg : LoopCfg) (early : List ℕ) (fired : List (ℕ × ℕ × ℕ))
    (endAt : ℚ) (sD : LoopState) : LoopState × List Ev × Bool :=
  match stepEarlyFired cfg early fired sD with
  | (sF, _, evEF, true) => (sF, evEF, true)
  | (sF, cF, evEF, false) =>
      match pop_pending sF endAt with
      | (lateL, sG) =>
          match dispatchHandles cfg Phase.late lateL sG cF with
          | (sH, _, evL, ab) => (sH, evEF ++ evL, ab)

/-- BaseEventLoop.run_step from src/aio/loop/pure.py: pop the early
batch, compute the selector timeout, select, read the after-select
clock, capture the ambient context, dispatch early timers, I/O
callbacks, and the late batch, in that order. Returns the final state,
the event trace, and whether a BaseException propagated out of the
step. -/
def run_step (cfg : LoopCfg) (s : LoopState) : LoopState × List Ev × Bool :=
  match stepPre2 cfg s with
  | (early, w, endAt, sD) =>
      match stepBody cfg early (cfg.selectFn w) endAt sD with
      | (sZ, evs, ab) => (sZ, Ev.selectCall w :: evs, ab)

/-- Modelled from the spec: the run driver of BaseEventLoop.run. The
root-task machinery (aio/future.py, not among the sources) is replaced
by the completion test doneFn of the configuration; run repeats
run_step until the test holds, and any exception escaping a step
(in particular the keyboard cancellation) propagates out of run, the
for loop catching and re-raising only that. The fuel argument bounds
the iteration. -/
def run_loop (cfg : LoopCfg) : ℕ → LoopState → LoopState × List Ev × Bool
  | 0, s => (s, [], false)
  | Nat.succ n, s =>
      match run_step cfg s with
      | (s1, tr, true) => (s1, tr, true)
      | (s1, tr, false) =>
          if cfg.doneFn s1 then (s1, tr, false)
          else
            match run_loop cfg n s1 with
            | (s2, tr2, ab) => (s2, tr ++ tr2, ab)

/-- Phase of an event, defined for callback invocations only. -/
def evPhase : Ev → Option Phase
  | Ev.invoke ph _ _ => some ph
  | _ => none

/-- Test for exception-handler invocation events. -/
def isHandlerB : Ev → Bool
  | Ev.handlerCall _ _ _ => true
  | _ => false

/-- Test for invocation events whose callback raises (an Exception or
a BaseException) according to the effect table. -/
def raisingB (cfg : LoopCfg) : Ev → Bool
  | Ev.invoke _ _ cb => decide (cfg.prog cb = CbAct.raiseE ∨ cfg.prog cb = CbAct.raiseB)
  | _ => false

/-- Extractor of I/O-phase invocation callbacks from an event. -/
def ioInvokeCb : Ev → Option ℕ
  | Ev.invoke Phase.ioCb _ cb => some cb
  | _ => none

theorem invoke_callback_eq_ret (cfg : LoopCfg) (s : LoopState) (ctx : Ctx)
    (ph : Phase) (ohid : Option ℕ) (cb : ℕ) (kw : List ℕ)
    (hp : cfg.prog cb = CbAct.ret) :
    invoke_callback cfg s ctx ph ohid cb kw = (s, ctx, [Ev.invoke ph ohid cb], false) := by
  simp [invoke_callback, runCbBody, hp]

theorem invoke_callback_eq_raiseE (cfg : LoopCfg) (s : LoopState) (ctx : Ctx)
    (ph : Phase) (ohid : Option ℕ) (cb : ℕ) (kw : List ℕ)
    (hp : cfg.prog cb = CbAct.raiseE) :
    invoke_callback cfg s ctx ph ohid cb kw
      = (s, ctx, [Ev.invoke ph ohid cb, Ev.handlerCall cb kw false], false) := by
  simp [invoke_callback, runCbBody, hp]

theorem invoke_callback_eq_raiseB (cfg : LoopCfg) (s : LoopState) (ctx : Ctx)
    (ph : Phase) (ohid : Option ℕ) (cb : ℕ) (kw : List ℕ)
    (hp : cfg.prog cb = CbAct.raiseB) :
    invoke_callback cfg s ctx ph ohid cb kw
      = (s, ctx, [Ev.invoke ph ohid cb, Ev.handlerCall cb kw true], true) := by
  simp [invoke_callback, runCbBody, hp]

theorem invoke_callback_eq_callSoon (cfg : LoopCfg) (s : LoopState) (ctx : Ctx)
    (ph : Phase) (ohid : Option ℕ) (cb : ℕ) (kw : List ℕ) (t : ℕ) (c : List ℕ)
    (hp : cfg.prog cb = CbAct.callSoon t c) :
    invoke_callback cfg s ctx ph ohid cb kw
      = ((call_soon s t [] (some c)).1, ctx, [Ev.invoke ph ohid cb], false) := by
  simp [invoke_callback, runCbBody, hp]

theorem invoke_callback_eq_cancelH (cfg : LoopCfg) (s : LoopState) (ctx : Ctx)
    (ph : Phase) (ohid : Option ℕ) (cb : ℕ) (kw : List ℕ) (hid0 : ℕ)
    (hp : cfg.prog cb = CbAct.cancelH hid0) :
    invoke_callback cfg s ctx ph ohid cb kw
      = (cancelHandleIn s hid0, ctx, [Ev.invoke ph ohid cb], false) := by
  simp [invoke_callback, runCbBody, hp]

theorem invoke_callback_eq_observe (cfg : LoopCfg) (s : LoopState) (ctx : Ctx)
    (ph : Phase) (ohid : Option ℕ) (cb : ℕ) (kw : List ℕ)
    (hp : cfg.prog cb = CbAct.observe) :
    invoke_callback cfg s ctx ph ohid cb kw
      = (s, ctx, [Ev.invoke ph ohid cb, Ev.observed cb (some cfg.loopId)], false) := by
  simp [invoke_callback, runCbBody, hp]

/-- Evolution relation between loop states across callback execution:
the fresh-identifier counter never decreases, deadlines of existing
handles never change, and a cancelled existing handle stays
cancelled. -/
def Evolve (s s2 : LoopState) : Prop :=
  s.nextHid ≤ s2.nextHid ∧
  (∀ hid, hid < s.nextHid →
      (getHandle s2.handles hid).when = (getHandle s.handles hid).when) ∧
  (∀ hid, hid < s.nextHid → (getHandle s.handles hid).cancelled = true →
      (getHandle s2.handles hid).cancelled = true)

/-- Well-formedness of a loop state: every handle identifier in the
map and in the scheduler is below the fresh counter, and every
scheduler entry is keyed by the deadline of its handle. -/
def LoopInv (s : LoopState) : Prop :=
  (∀ p ∈ s.handles, p.1 < s.nextHid) ∧
  (∀ e ∈ s.sched, e.hid < s.nextHid) ∧
  (∀ e ∈ s.sched, e.key = (getHandle s.handles e.hid).when)

theorem evolve_refl (s : LoopState) : Evolve s s :=
  ⟨le_refl _, fun _ _ => rfl, fun _ _ hc => hc⟩

theorem evolve_trans {s1 s2 s3 : LoopState} (h12 : Evolve s1 s2)
    (h23 : Evolve s2 s3) : Evolve s1 s3 := by
  obtain ⟨le12, w12, c12⟩ := h12
  obtain ⟨le23, w23, c23⟩ := h23
  refine ⟨le_trans le12 le23, fun hid hlt => ?_, fun hid hlt hc => ?_⟩
  · rw [w23 hid (lt_of_lt_of_le hlt le12), w12 hid hlt]
  · exact c23 hid (lt_of_lt_of_le hlt le12) (c12 hid hlt hc)

theorem evolve_of_same_handles {s s2 : LoopState} (hh : s2.handles = s.handles)
    (hn : s2.nextHid = s.nextHid) : Evolve s s2 := by
  refine ⟨le_of_eq hn.symm, fun hid _ => by rw [hh], fun hid _ hc => by rw [hh]; exact hc⟩

theorem getHandle_setHandle_ne (hs : List (ℕ × Handle)) (hid hid2 : ℕ)
    (h : Handle) (hne : hid2 ≠ hid) :
    getHandle (setHandle hs hid h) hid2 = getHandle hs hid2 := by
  induction hs with
  | nil => rfl
  | cons p rest ih =>
      by_cases hp : p.1 = hid
      · have hb : p.1 ≠ hid2 := by
          rw [hp]; exact fun he => hne he.symm
        simp [setHandle, if_pos hp, getHandle, hb] at ih ⊢
        exact ih
      · by_cases hb : p.1 = hid2
        · simp [setHandle, if_neg hp, getHandle, hb, hne]
        · simp [setHandle, if_neg hp, getHandle, hb] at ih ⊢
          exact ih

theorem getHandle_setHandle_self (hs : List (ℕ × Handle)) (hid : ℕ) (h : Handle) :
    getHandle (setHandle hs hid h) hid = h ∨
    getHandle (setHandle hs hid h) hid = getHandle hs hid := by
  induction hs with
  | nil => right; rfl
  | cons p rest ih =>
      by_cases hp : p.1 = hid
      · left
        simp [setHandle, if_pos hp, getHandle, hp]
      · simp only [setHandle, List.map] at ih ⊢
        simp only [if_neg hp]
        rcases ih with ih | ih
        · left
          simpa [getHandle, hp] using ih
        · right
          simpa [getHandle, hp] using ih

theorem cancelHandleIn_when (s : LoopState) (hid hid2 : ℕ) :
    (getHandle (cancelHandleIn s hid).handles hid2).when
      = (getHandle s.handles hid2).when := by
  by_cases hne : hid2 = hid
  · subst hne
    simp only [cancelHandleIn]
    rcases getHandle_setHandle_self s.handles hid2 ((getHandle s.handles hid2).cancel)
      with h | h
    · rw [h]; rfl
    · rw [h]
  · simp only [cancelHandleIn]
    rw [getHandle_setHandle_ne s.handles hid hid2 _ hne]

theorem cancelHandleIn_cancelled_mono (s : LoopState) (hid hid2 : ℕ)
    (hc : (getHandle s.handles hid2).cancelled = true) :
    (getHandle (cancelHandleIn s hid).handles hid2).cancelled = true := by
  by_cases hne : hid2 = hid
  · subst hne
    simp only [cancelHandleIn]
    rcases getHandle_setHandle_self s.handles hid2 ((getHandle s.handles hid2).cancel)
      with h | h
    · rw [h]; rfl
    · rw [h]; exact hc
  · simp only [cancelHandleIn]
    rw [getHandle_setHandle_ne s.handles hid hid2 _ hne]
    exact hc

theorem evolve_cancelHandleIn (s : LoopState) (hid : ℕ) :
    Evolve s (cancelHandleIn s hid) := by
  refine ⟨le_refl _, fun hid2 _ => cancelHandleIn_when s hid hid2,
          fun hid2 _ hc => cancelHandleIn_cancelled_mono s hid hid2 hc⟩

theorem evolve_call_soon (s : LoopState) (t : ℕ) (a : List ℕ)
    (c : Option (List ℕ)) : Evolve s (call_soon s t a c).1 := by
  refine ⟨by simp [call_soon, enqueue], fun hid hlt => ?_, fun hid hlt hc => ?_⟩
  · have hne : s.nextHid ≠ hid := Nat.ne_of_gt hlt
    simp [call_soon, enqueue, getHandle_cons_ne s.handles s.nextHid hid _ hne]
  · have hne : s.nextHid ≠ hid := Nat.ne_of_gt hlt
    simp [call_soon, enqueue, getHandle_cons_ne s.handles s.nextHid hid _ hne, hc]

theorem evolve_runCbBody (cfg : LoopCfg) (s : LoopState) (ctx : Ctx) (cb : ℕ) :
    Evolve s (runCbBody cfg s ctx cb).1 := by
  cases hp : cfg.prog cb with
  | ret => simp [runCbBody, hp]; exact evolve_refl s
  | raiseE => simp [runCbBody, hp]; exact evolve_refl s
  | raiseB => simp [runCbBody, hp]; exact evolve_refl s
  | callSoon t c => simp [runCbBody, hp]; exact evolve_call_soon s t [] (some c)
  | cancelH hid0 => simp [runCbBody, hp]; exact evolve_cancelHandleIn s hid0
  | observe => simp [runCbBody, hp]; exact evolve_refl s

theorem evolve_invoke_callback (cfg : LoopCfg) (s : LoopState) (ctx : Ctx)
    (ph : Phase) (ohid : Option ℕ) (cb : ℕ) (kw : List ℕ) :
    Evolve s (invoke_callback cfg s ctx ph ohid cb kw).1 := by
  cases hp : cfg.prog cb with
  | ret => rw [invoke_callback_eq_ret cfg s ctx ph ohid cb kw hp]; exact evolve_refl s
  | raiseE => rw [invoke_callback_eq_raiseE cfg s ctx ph ohid cb kw hp]; exact evolve_refl s
  | raiseB => rw [invoke_callback_eq_raiseB cfg s ctx ph ohid cb kw hp]; exact evolve_refl s
  | callSoon t c =>
      rw [invoke_callback_eq_callSoon cfg s ctx ph ohid cb kw t c hp]
      exact evolve_call_soon s t [] (some c)
  | cancelH hid0 =>
      rw [invoke_callback_eq_cancelH cfg s ctx ph ohid cb kw hid0 hp]
      exact evolve_cancelHandleIn s hid0
  | observe => rw [invoke_callback_eq_observe cfg s ctx ph ohid cb kw hp]; exact evolve_refl s

theorem evolve_invoke_handle (cfg : LoopCfg) (s : LoopState) (ctx : Ctx)
    (ph : Phase) (hid : ℕ) : Evolve s (invoke_handle cfg s ctx ph hid).1 := by
  by_cases hc : (getHandle s.handles hid).cancelled
  · simp [invoke_handle, hc]; exact evolve_refl s
  · simp [invoke_handle, hc]; exact evolve_invoke_callback cfg s ctx ph (some hid) _ []

theorem evolve_dispatchHandles (cfg : LoopCfg) (ph : Phase) :
    ∀ (l : List ℕ) (s : LoopState) (ctx : Ctx),
      Evolve s (dispatchHandles cfg ph l s ctx).1 := by
  intro l
  induction l with
  | nil => intro s ctx; exact evolve_refl s
  | cons hid rest ih =>
      intro s ctx
      have h1 := evolve_invoke_handle cfg s ctx ph hid
      rcases hins : invoke_handle cfg s ctx ph hid with ⟨s1, c1, e1, ab⟩
      rw [hins] at h1
      cases ab with
      | true => simpa [dispatchHandles, hins] using h1
      | false =>
          have h2 := ih s1 c1
          rcases hd : dispatchHandles cfg ph rest s1 c1 with ⟨s2, c2, e2, ab2⟩
          rw [hd] at h2
          have : (dispatchHandles cfg ph (hid :: rest) s ctx).1 = s2 := by
            simp [dispatchHandles, hins, hd]
          rw [this]
          exact evolve_trans h1 h2

theorem evolve_dispatchFired (cfg : LoopCfg) :
    ∀ (l : List (ℕ × ℕ × ℕ)) (s : LoopState) (ctx : Ctx),
      Evolve s (dispatchFired cfg l s ctx).1 := by
  intro l
  induction l with
  | nil => intro s ctx; exact evolve_refl s
  | cons trip rest ih =>
      intro s ctx
      rcases trip with ⟨cb, fd, ev⟩
      have h1 := evolve_invoke_callback cfg s ctx Phase.ioCb none cb [fd, ev]
      rcases hins : invoke_callback cfg s ctx Phase.ioCb none cb [fd, ev]
        with ⟨s1, c1, e1, ab⟩
      rw [hins] at h1
      cases ab with
      | true => simpa [dispatchFired, hins] using h1
      | false =>
          have h2 := ih s1 c1
          rcases hd : dispatchFired cfg rest s1 c1 with ⟨s2, c2, e2, ab2⟩
          rw [hd] at h2
          have : (dispatchFired cfg ((cb, fd, ev) :: rest) s ctx).1 = s2 := by
            simp [dispatchFired, hins, hd]
          rw [this]
          exact evolve_trans h1 h2

theorem mem_insertEntry (e : SchedEntry) (l : List SchedEntry) (a : SchedEntry) :
    a ∈ insertEntry e l ↔ a = e ∨ a ∈ l := by
  induction l with
  | nil => simp [insertEntry]
  | cons f rest ih =>
      by_cases h : keyLE f.key e.key
      · simp [insertEntry, h, ih]
        tauto
      · simp [insertEntry, h]

theorem mem_setHandle (hs : List (ℕ × Handle)) (hid : ℕ) (h : Handle)
    (q : ℕ × Handle) (hq : q ∈ setHandle hs hid h) : ∃ p ∈ hs, q.1 = p.1 := by
  rcases List.mem_map.mp hq with ⟨p, hp, he⟩
  refine ⟨p, hp, ?_⟩
  by_cases hc : p.1 = hid
  · rw [← he]; simp [hc]
  · rw [← he]; simp [hc]

theorem inv_enqueue (s : LoopState) (h : Handle) (hinv : LoopInv s) :
    LoopInv (enqueue s h).1 := by
  obtain ⟨h1, h2, h3⟩ := hinv
  refine ⟨?_, ?_, ?_⟩
  · intro p hp
    simp only [enqueue] at hp ⊢
    rcases List.mem_cons.mp hp with he | hm
    · rw [he]; exact Nat.lt_succ_self _
    · exact Nat.lt_succ_of_lt (h1 p hm)
  · intro e he
    simp only [enqueue] at he ⊢
    rcases (mem_insertEntry _ _ _).mp he with rfl | hm
    · exact Nat.lt_succ_self _
    · exact Nat.lt_succ_of_lt (h2 e hm)
  · intro e he
    simp only [enqueue] at he ⊢
    rcases (mem_insertEntry _ _ _).mp he with rfl | hm
    · simp [getHandle_cons_self]
    · have hlt := h2 e hm
      have hne : s.nextHid ≠ e.hid := Nat.ne_of_gt hlt
      rw [getHandle_cons_ne s.handles s.nextHid e.hid h hne]
      exact h3 e hm

theorem inv_call_soon (s : LoopState) (t : ℕ) (a : List ℕ) (c : Option (List ℕ))
    (hinv : LoopInv s) : LoopInv (call_soon s t a c).1 :=
  inv_enqueue s _ hinv

theorem inv_cancelHandleIn (s : LoopState) (hid : ℕ) (hinv : LoopInv s) :
    LoopInv (cancelHandleIn s hid) := by
  obtain ⟨h1, h2, h3⟩ := hinv
  refine ⟨?_, ?_, ?_⟩
  · intro p hp
    rcases mem_setHandle s.handles hid _ p hp with ⟨q, hq, he⟩
    rw [he]
    exact h1 q hq
  · intro e he
    exact h2 e he
  · intro e he
    rw [cancelHandleIn_when s hid e.hid]
    exact h3 e he

theorem inv_runCbBody (cfg : LoopCfg) (s : LoopState) (ctx : Ctx) (cb : ℕ)
    (hinv : LoopInv s) : LoopInv (runCbBody cfg s ctx cb).1 := by
  cases hp : cfg.prog cb with
  | ret => simpa [runCbBody, hp] using hinv
  | raiseE => simpa [runCbBody, hp] using hinv
  | raiseB => simpa [runCbBody, hp] using hinv
  | callSoon t c =>
      simp only [runCbBody, hp]
      exact inv_call_soon s t [] (some c) hinv
  | cancelH hid0 =>
      simp only [runCbBody, hp]
      exact inv_cancelHandleIn s hid0 hinv
  | observe => simpa [runCbBody, hp] using hinv

theorem inv_invoke_callback (cfg : LoopCfg) (s : LoopState) (ctx : Ctx)
    (ph : Phase) (ohid : Option ℕ) (cb : ℕ) (kw : List ℕ) (hinv : LoopInv s) :
    LoopInv (invoke_callback cfg s ctx ph ohid cb kw).1 := by
  cases hp : cfg.prog cb with
  | ret => rw [invoke_callback_eq_ret cfg s ctx ph ohid cb kw hp]; exact hinv
  | raiseE => rw [invoke_callback_eq_raiseE cfg s ctx ph ohid cb kw hp]; exact hinv
  | raiseB => rw [invoke_callback_eq_raiseB cfg s ctx ph ohid cb kw hp]; exact hinv
  | callSoon t c =>
      rw [invoke_callback_eq_callSoon cfg s ctx ph ohid cb kw t c hp]
      exact inv_call_soon s t [] (some c) hinv
  | cancelH hid0 =>
      rw [invoke_callback_eq_cancelH cfg s ctx ph ohid cb kw hid0 hp]
      exact inv_cancelHandleIn s hid0 hinv
  | observe => rw [invoke_callback_eq_observe cfg s ctx ph ohid cb kw hp]; exact hinv

theorem inv_invoke_handle (cfg : LoopCfg) (s : LoopState) (ctx : Ctx)
    (ph : Phase) (hid : ℕ) (hinv : LoopInv s) :
    LoopInv (invoke_handle cfg s ctx ph hid).1 := by
  by_cases hc : (getHandle s.handles hid).cancelled
  · simpa [invoke_handle, hc] using hinv
  · simp only [invoke_handle, hc]
    simpa using inv_invoke_callback cfg s ctx ph (some hid) _ [] hinv

theorem inv_dispatchHandles (cfg : LoopCfg) (ph : Phase) :
    ∀ (l : List ℕ) (s : LoopState) (ctx : Ctx), LoopInv s →
      LoopInv (dispatchHandles cfg ph l s ctx).1 := by
  intro l
  induction l with
  | nil => intro s ctx hinv; exact hinv
  | cons hid rest ih =>
      intro s ctx hinv
      have h1 := inv_invoke_handle cfg s ctx ph hid hinv
      rcases hins : invoke_handle cfg s ctx ph hid with ⟨s1, c1, e1, ab⟩
      rw [hins] at h1
      cases ab with
      | true => simpa [dispatchHandles, hins] using h1
      | false =>
          have h2 := ih s1 c1 h1
          rcases hd : dispatchHandles cfg ph rest s1 c1 with ⟨s2, c2, e2, ab2⟩
          rw [hd] at h2
          have : (dispatchHandles cfg ph (hid :: rest) s ctx).1 = s2 := by
            simp [dispatchHandles, hins, hd]
          rw [this]
          exact h2

theorem inv_dispatchFired (cfg : LoopCfg) :
    ∀ (l : List (ℕ × ℕ × ℕ)) (s : LoopState) (ctx : Ctx), LoopInv s →
      LoopInv (dispatchFired cfg l s ctx).1 := by
  intro l
  induction l with
  | nil => intro s ctx hinv; exact hinv
  | cons trip rest ih =>
      intro s ctx hinv
      rcases trip with ⟨cb, fd, ev⟩
      have h1 := inv_invoke_callback cfg s ctx Phase.ioCb none cb [fd, ev] hinv
      rcases hins : invoke_callback cfg s ctx Phase.ioCb none cb [fd, ev]
        with ⟨s1, c1, e1, ab⟩
      rw [hins] at h1
      cases ab with
      | true => simpa [dispatchFired, hins] using h1
      | false =>
          have h2 := ih s1 c1 h1
          rcases hd : dispatchFired cfg rest s1 c1 with ⟨s2, c2, e2, ab2⟩
          rw [hd] at h2
          have : (dispatchFired cfg ((cb, fd, ev) :: rest) s ctx).1 = s2 := by
            simp [dispatchFired, hins, hd]
          rw [this]
          exact h2

theorem inv_pop_pending (s : LoopState) (t : ℚ) (hinv : LoopInv s) :
    LoopInv (pop_pending s t).2 := by
  obtain ⟨h1, h2, h3⟩ := hinv
  refine ⟨fun p hp => h1 p hp, ?_, ?_⟩
  · intro e he
    simp only [pop_pending] at he
    exact h2 e (List.mem_filter.mp he).1
  · intro e he
    simp only [pop_pending] at he
    exact h3 e (List.mem_filter.mp he).1

theorem evolve_pop_pending (s : LoopState) (t : ℚ) : Evolve s (pop_pending s t).2 :=
  evolve_of_same_handles rfl rfl

theorem inv_computeWait (cfg : LoopCfg) (early : List ℕ) (ne : Option (Option ℚ))
    (s : LoopState) (hinv : LoopInv s) : LoopInv (computeWait cfg early ne s).2 := by
  by_cases he : early.isEmpty
  · cases ne with
    | none => simpa [computeWait, he] using hinv
    | some k =>
        cases k with
        | none => simpa [computeWait, he] using hinv
        | some d => simpa [computeWait, he] using hinv
  · simpa [computeWait, he] using hinv

theorem evolve_computeWait (cfg : LoopCfg) (early : List ℕ)
    (ne : Option (Option ℚ)) (s : LoopState) : Evolve s (computeWait cfg early ne s).2 := by
  by_cases he : early.isEmpty
  · cases ne with
    | none => simp [computeWait, he]; exact evolve_refl s
    | some k =>
        cases k with
        | none => simp [computeWait, he]; exact evolve_refl s
        | some d => simp [computeWait, he]; exact evolve_of_same_handles rfl rfl
  · simp [computeWait, he]; exact evolve_refl s

theorem invoke_callback_cases (cfg : LoopCfg) (s : LoopState) (ctx : Ctx)
    (ph : Phase) (ohid : Option ℕ) (cb : ℕ) (kw : List ℕ) :
    (∃ s2, (cfg.prog cb ≠ CbAct.raiseE ∧ cfg.prog cb ≠ CbAct.raiseB) ∧
      (invoke_callback cfg s ctx ph ohid cb kw
          = (s2, ctx, [Ev.invoke ph ohid cb], false) ∨
       invoke_callback cfg s ctx ph ohid cb kw
          = (s2, ctx, [Ev.invoke ph ohid cb, Ev.observed cb (some cfg.loopId)], false))) ∨
    (cfg.prog cb = CbAct.raiseE ∧
      invoke_callback cfg s ctx ph ohid cb kw
        = (s, ctx, [Ev.invoke ph ohid cb, Ev.handlerCall cb kw false], false)) ∨
    (cfg.prog cb = CbAct.raiseB ∧
      invoke_callback cfg s ctx ph ohid cb kw
        = (s, ctx, [Ev.invoke ph ohid cb, Ev.handlerCall cb kw true], true)) := by
  cases hp : cfg.prog cb with
  | ret =>
      exact Or.inl ⟨s, ⟨by simp [hp], by simp [hp]⟩,
        Or.inl (invoke_callback_eq_ret cfg s ctx ph ohid cb kw hp)⟩
  | raiseE =>
      exact Or.inr (Or.inl ⟨rfl, invoke_callback_eq_raiseE cfg s ctx ph ohid cb kw hp⟩)
  | raiseB =>
      exact Or.inr (Or.inr ⟨rfl, invoke_callback_eq_raiseB cfg s ctx ph ohid cb kw hp⟩)
  | callSoon t c =>
      exact Or.inl ⟨(call_soon s t [] (some c)).1, ⟨by simp [hp], by simp [hp]⟩,
        Or.inl (invoke_callback_eq_callSoon cfg s ctx ph ohid cb kw t c hp)⟩
  | cancelH hid0 =>
      exact Or.inl ⟨cancelHandleIn s hid0, ⟨by simp [hp], by simp [hp]⟩,
        Or.inl (invoke_callback_eq_cancelH cfg s ctx ph ohid cb kw hid0 hp)⟩
  | observe =>
      exact Or.inl ⟨s, ⟨by simp [hp], by simp [hp]⟩,
        Or.inr (invoke_callback_eq_observe cfg s ctx ph ohid cb kw hp)⟩

theorem invoke_callback_ctx_eq (cfg : LoopCfg) (s : LoopState) (ctx : Ctx)
    (ph : Phase) (ohid : Option ℕ) (cb : ℕ) (kw : List ℕ) :
    (invoke_callback cfg s ctx ph ohid cb kw).2.1 = ctx := by
  rcases invoke_callback_cases cfg s ctx ph ohid cb kw with
    ⟨s2, _, he | he⟩ | ⟨_, he⟩ | ⟨_, he⟩ <;> rw [he]

theorem invoke_callback_abort_iff (cfg : LoopCfg) (s : LoopState) (ctx : Ctx)
    (ph : Phase) (ohid : Option ℕ) (cb : ℕ) (kw : List ℕ) :
    (invoke_callback cfg s ctx ph ohid cb kw).2.2.2 = true ↔
      cfg.prog cb = CbAct.raiseB := by
  rcases invoke_callback_cases cfg s ctx ph ohid cb kw with
    ⟨s2, ⟨_, hnb⟩, he | he⟩ | ⟨hp, he⟩ | ⟨hp, he⟩
  · rw [he]; simp [hnb]
  · rw [he]; simp [hnb]
  · rw [he]; simp [hp]
  · rw [he]; simp [hp]

theorem invoke_callback_evs_head (cfg : LoopCfg) (s : LoopState) (ctx : Ctx)
    (ph : Phase) (ohid : Option ℕ) (cb : ℕ) (kw : List ℕ) :
    ∃ tail, (invoke_callback cfg s ctx ph ohid cb kw).2.2.1
      = Ev.invoke ph ohid cb :: tail := by
  rcases invoke_callback_cases cfg s ctx ph ohid cb kw with
    ⟨s2, _, he | he⟩ | ⟨_, he⟩ | ⟨_, he⟩ <;> rw [he] <;> exact ⟨_, rfl⟩

theorem invoke_callback_evs_mem (cfg : LoopCfg) (s : LoopState) (ctx : Ctx)
    (ph : Phase) (ohid : Option ℕ) (cb : ℕ) (kw : List ℕ) (ev : Ev)
    (hm : ev ∈ (invoke_callback cfg s ctx ph ohid cb kw).2.2.1) :
    ev = Ev.invoke ph ohid cb ∨ ev = Ev.observed cb (some cfg.loopId) ∨
    ev = Ev.handlerCall cb kw false ∨ ev = Ev.handlerCall cb kw true := by
  rcases invoke_callback_cases cfg s ctx ph ohid cb kw with
    ⟨s2, _, he | he⟩ | ⟨_, he⟩ | ⟨_, he⟩ <;> rw [he] at hm <;> simp at hm <;> tauto

theorem invoke_callback_count_eq (cfg : LoopCfg) (s : LoopState) (ctx : Ctx)
    (ph : Phase) (ohid : Option ℕ) (cb : ℕ) (kw : List ℕ) :
    ((invoke_callback cfg s ctx ph ohid cb kw).2.2.1).countP isHandlerB
      = ((invoke_callback cfg s ctx ph ohid cb kw).2.2.1).countP (raisingB cfg) := by
  rcases invoke_callback_cases cfg s ctx ph ohid cb kw with
    ⟨s2, ⟨hne, hnb⟩, he | he⟩ | ⟨hp, he⟩ | ⟨hp, he⟩
  · rw [he]; simp [List.countP_cons, isHandlerB, raisingB, hne, hnb]
  · rw [he]; simp [List.countP_cons, isHandlerB, raisingB, hne, hnb]
  · rw [he]; simp [List.countP_cons, isHandlerB, raisingB, hp]
  · rw [he]; simp [List.countP_cons, isHandlerB, raisingB, hp]

theorem invoke_callback_handler_mem (cfg : LoopCfg) (s : LoopState) (ctx : Ctx)
    (ph : Phase) (ohid : Option ℕ) (cb : ℕ) (kw : List ℕ) (c2 : ℕ)
    (kw2 : List ℕ) (b : Bool)
    (hm : Ev.handlerCall c2 kw2 b ∈ (invoke_callback cfg s ctx ph ohid cb kw).2.2.1) :
    c2 = cb ∧ kw2 = kw ∧
      ((b = false ∧ cfg.prog c2 = CbAct.raiseE) ∨
       (b = true ∧ cfg.prog c2 = CbAct.raiseB)) := by
  rcases invoke_callback_cases cfg s ctx ph ohid cb kw with
    ⟨s2, _, he | he⟩ | ⟨hp, he⟩ | ⟨hp, he⟩
  · rw [he] at hm; simp at hm
  · rw [he] at hm; simp at hm
  · rw [he] at hm
    simp only [List.mem_cons, List.mem_singleton, List.not_mem_nil, or_false] at hm
    rcases hm with hq | hq
    · exact absurd hq (by simp)
    · obtain ⟨rfl, rfl, rfl⟩ := (by simpa using hq :
        c2 = cb ∧ kw2 = kw ∧ b = false)
      exact ⟨rfl, rfl, Or.inl ⟨rfl, hp⟩⟩
  · rw [he] at hm
    simp only [List.mem_cons, List.mem_singleton, List.not_mem_nil, or_false] at hm
    rcases hm with hq | hq
    · exact absurd hq (by simp)
    · obtain ⟨rfl, rfl, rfl⟩ := (by simpa using hq :
        c2 = cb ∧ kw2 = kw ∧ b = true)
      exact ⟨rfl, rfl, Or.inr ⟨rfl, hp⟩⟩

theorem invoke_callback_observed_mem (cfg : LoopCfg) (s : LoopState) (ctx : Ctx)
    (ph : Phase) (ohid : Option ℕ) (cb : ℕ) (kw : List ℕ) (c2 : ℕ) (v : Option ℕ)
    (hm : Ev.observed c2 v ∈ (invoke_callback cfg s ctx ph ohid cb kw).2.2.1) :
    v = some cfg.loopId := by
  rcases invoke_callback_cases cfg s ctx ph ohid cb kw with
    ⟨s2, _, he | he⟩ | ⟨_, he⟩ | ⟨_, he⟩
  · rw [he] at hm; simp at hm
  · rw [he] at hm; simp at hm; exact hm.2
  · rw [he] at hm; simp at hm
  · rw [he] at hm; simp at hm

theorem invoke_handle_ctx_eq (cfg : LoopCfg) (s : LoopState) (ctx : Ctx)
    (ph : Phase) (hid : ℕ) : (invoke_handle cfg s ctx ph hid).2.1 = ctx := by
  by_cases hc : (getHandle s.handles hid).cancelled
  · simp [invoke_handle, hc]
  · simp only [invoke_handle, hc, Bool.false_eq_true, if_false]
    exact invoke_callback_ctx_eq cfg s ctx ph (some hid) _ []

theorem invoke_handle_evs_mem (cfg : LoopCfg) (s : LoopState) (ctx : Ctx)
    (ph : Phase) (hid : ℕ) (ev : Ev)
    (hm : ev ∈ (invoke_handle cfg s ctx ph hid).2.2.1) :
    ev = Ev.skipCancelled ph hid ∨
    (∃ cb, ev = Ev.invoke ph (some hid) cb) ∨
    (∃ c2, ev = Ev.observed c2 (some cfg.loopId)) ∨
    (∃ c2 kw2 b, ev = Ev.handlerCall c2 kw2 b ∧
      ((b = false ∧ cfg.prog c2 = CbAct.raiseE) ∨
       (b = true ∧ cfg.prog c2 = CbAct.raiseB))) := by
  by_cases hc : (getHandle s.handles hid).cancelled
  · simp [invoke_handle, hc] at hm
    exact Or.inl hm
  · simp only [invoke_handle, hc, Bool.false_eq_true, if_false] at hm
    rcases invoke_callback_evs_mem cfg s ctx ph (some hid) _ [] ev hm with
      he | he | he | he
    · exact Or.inr (Or.inl ⟨_, he⟩)
    · exact Or.inr (Or.inr (Or.inl ⟨_, he⟩))
    · subst he
      have := invoke_callback_handler_mem cfg s ctx ph (some hid) _ [] _ [] false hm
      exact Or.inr (Or.inr (Or.inr ⟨_, [], false, rfl, Or.inl ⟨rfl, (this.2.2.resolve_right
        (by rintro ⟨h1, _⟩; exact absurd h1.symm (by simp))).2⟩⟩))
    · subst he
      have := invoke_callback_handler_mem cfg s ctx ph (some hid) _ [] _ [] true hm
      exact Or.inr (Or.inr (Or.inr ⟨_, [], true, rfl, Or.inr ⟨rfl, (this.2.2.resolve_left
        (by rintro ⟨h1, _⟩; exact absurd h1.symm (by simp))).2⟩⟩))

theorem invoke_handle_abort_iff (cfg : LoopCfg) (s : LoopState) (ctx : Ctx)
    (ph : Phase) (hid : ℕ) :
    (invoke_handle cfg s ctx ph hid).2.2.2 = true ↔
      ((getHandle s.handles hid).cancelled = false ∧
        cfg.prog (getHandle s.handles hid).callback = CbAct.raiseB) := by
  by_cases hc : (getHandle s.handles hid).cancelled
  · simp [invoke_handle, hc]
  · simp only [invoke_handle, hc, Bool.false_eq_true, if_false]
    rw [invoke_callback_abort_iff cfg s ctx ph (some hid) _ []]
    simp [hc]

theorem invoke_handle_count_eq (cfg : LoopCfg) (s : LoopState) (ctx : Ctx)
    (ph : Phase) (hid : ℕ) :
    ((invoke_handle cfg s ctx ph hid).2.2.1).countP isHandlerB
      = ((invoke_handle cfg s ctx ph hid).2.2.1).countP (raisingB cfg) := by
  by_cases hc : (getHandle s.handles hid).cancelled
  · simp [invoke_handle, hc, List.countP_cons, isHandlerB, raisingB]
  · simp only [invoke_handle, hc, Bool.false_eq_true, if_false]
    exact invoke_callback_count_eq cfg s ctx ph (some hid) _ []

theorem invoke_handle_complete (cfg : LoopCfg) (s : LoopState) (ctx : Ctx)
    (ph : Phase) (hid : ℕ) :
    Ev.skipCancelled ph hid ∈ (invoke_handle cfg s ctx ph hid).2.2.1 ∨
    ∃ cb, Ev.invoke ph (some hid) cb ∈ (invoke_handle cfg s ctx ph hid).2.2.1 := by
  by_cases hc : (getHandle s.handles hid).cancelled
  · simp [invoke_handle, hc]
  · simp only [invoke_handle, hc, Bool.false_eq_true, if_false]
    rcases invoke_callback_evs_head cfg s ctx ph (some hid)
      (getHandle s.handles hid).callback [] with ⟨tail, he⟩
    right
    exact ⟨(getHandle s.handles hid).callback, by rw [he]; exact List.mem_cons_self _ _⟩

theorem invoke_handle_abort_handler (cfg : LoopCfg) (s : LoopState) (ctx : Ctx)
    (ph : Phase) (hid : ℕ) (hab : (invoke_handle cfg s ctx ph hid).2.2.2 = true) :
    ∃ c2 kw2, Ev.handlerCall c2 kw2 true ∈ (invoke_handle cfg s ctx ph hid).2.2.1 := by
  rcases (invoke_handle_abort_iff cfg s ctx ph hid).mp hab with ⟨hc, hp⟩
  simp only [invoke_handle, hc, Bool.false_eq_true, if_false]
  rw [invoke_callback_eq_raiseB cfg s ctx ph (some hid) _ [] hp]
  exact ⟨(getHandle s.handles hid).callback, [], by simp⟩

theorem dispatchHandles_evs_mem (cfg : LoopCfg) (ph : Phase) :
    ∀ (l : List ℕ) (s : LoopState) (ctx : Ctx) (ev : Ev),
      ev ∈ (dispatchHandles cfg ph l s ctx).2.2.1 →
      (∃ hid ∈ l, ev = Ev.skipCancelled ph hid) ∨
      (∃ hid ∈ l, ∃ cb, ev = Ev.invoke ph (some hid) cb) ∨
      (∃ c2, ev = Ev.observed c2 (some cfg.loopId)) ∨
      (∃ c2 kw2 b, ev = Ev.handlerCall c2 kw2 b ∧
        ((b = false ∧ cfg.prog c2 = CbAct.raiseE) ∨
         (b = true ∧ cfg.prog c2 = CbAct.raiseB))) := by
  intro l
  induction l with
  | nil => intro s ctx ev hm; simp [dispatchHandles] at hm
  | cons hid rest ih =>
      intro s ctx ev hm
      have hlift : ev ∈ (invoke_handle cfg s ctx ph hid).2.2.1 →
          (∃ hid2 ∈ hid :: rest, ev = Ev.skipCancelled ph hid2) ∨
          (∃ hid2 ∈ hid :: rest, ∃ cb, ev = Ev.invoke ph (some hid2) cb) ∨
          (∃ c2, ev = Ev.observed c2 (some cfg.loopId)) ∨
          (∃ c2 kw2 b, ev = Ev.handlerCall c2 kw2 b ∧
            ((b = false ∧ cfg.prog c2 = CbAct.raiseE) ∨
             (b = true ∧ cfg.prog c2 = CbAct.raiseB))) := by
        intro hm1
        rcases invoke_handle_evs_mem cfg s ctx ph hid ev hm1 with he | ⟨cb, he⟩ | hrest | hrest
        · exact Or.inl ⟨hid, List.mem_cons_self _ _, he⟩
        · exact Or.inr (Or.inl ⟨hid, List.mem_cons_self _ _, cb, he⟩)
        · exact Or.inr (Or.inr (Or.inl hrest))
        · exact Or.inr (Or.inr (Or.inr hrest))
      rcases hins : invoke_handle cfg s ctx ph hid with ⟨s1, c1, e1, ab⟩
      rw [hins] at hlift
      cases ab with
      | true =>
          have hres : dispatchHandles cfg ph (hid :: rest) s ctx = (s1, c1, e1, true) := by
            simp [dispatchHandles, hins]
          rw [hres] at hm
          exact hlift hm
      | false =>
          rcases hd : dispatchHandles cfg ph rest s1 c1 with ⟨s2, c2, e2, ab2⟩
          have hres : dispatchHandles cfg ph (hid :: rest) s ctx = (s2, c2, e1 ++ e2, ab2) := by
            simp [dispatchHandles, hins, hd]
          rw [hres] at hm
          rcases List.mem_append.mp hm with h1 | h2
          · exact hlift h1
          · have := ih s1 c1 ev (by rw [hd]; exact h2)
            rcases this with ⟨hid2, hmem, he⟩ | ⟨hid2, hmem, cb, he⟩ | hrest | hrest
            · exact Or.inl ⟨hid2, List.mem_cons_of_mem _ hmem, he⟩
            · exact Or.inr (Or.inl ⟨hid2, List.mem_cons_of_mem _ hmem, cb, he⟩)
            · exact Or.inr (Or.inr (Or.inl hrest))
            · exact Or.inr (Or.inr (Or.inr hrest))

theorem dispatchFired_evs_mem (cfg : LoopCfg) :
    ∀ (l : List (ℕ × ℕ × ℕ)) (s : LoopState) (ctx : Ctx) (ev : Ev),
      ev ∈ (dispatchFired cfg l s ctx).2.2.1 →
      (∃ trip ∈ l, ev = Ev.invoke Phase.ioCb none trip.1) ∨
      (∃ c2, ev = Ev.observed c2 (some cfg.loopId)) ∨
      (∃ c2 kw2 b, ev = Ev.handlerCall c2 kw2 b ∧
        ((b = false ∧ cfg.prog c2 = CbAct.raiseE) ∨
         (b = true ∧ cfg.prog c2 = CbAct.raiseB))) := by
  intro l
  induction l with
  | nil => intro s ctx ev hm; simp [dispatchFired] at hm
  | cons trip rest ih =>
      intro s ctx ev hm
      rcases trip with ⟨cb, fd, evt⟩
      have hlift : ev ∈ (invoke_callback cfg s ctx Phase.ioCb none cb [fd, evt]).2.2.1 →
          (∃ trip2 ∈ (cb, fd, evt) :: rest, ev = Ev.invoke Phase.ioCb none trip2.1) ∨
          (∃ c2, ev = Ev.observed c2 (some cfg.loopId)) ∨
          (∃ c2 kw2 b, ev = Ev.handlerCall c2 kw2 b ∧
            ((b = false ∧ cfg.prog c2 = CbAct.raiseE) ∨
             (b = true ∧ cfg.prog c2 = CbAct.raiseB))) := by
        intro hm1
        rcases invoke_callback_evs_mem cfg s ctx Phase.ioCb none cb [fd, evt] ev hm1 with
          he | he | he | he
        · exact Or.inl ⟨(cb, fd, evt), List.mem_cons_self _ _, he⟩
        · exact Or.inr (Or.inl ⟨cb, he⟩)
        · subst he
          have := invoke_callback_handler_mem cfg s ctx Phase.ioCb none cb [fd, evt]
            cb [fd, evt] false hm1
          exact Or.inr (Or.inr ⟨cb, [fd, evt], false, rfl, Or.inl ⟨rfl,
            ((this.2.2).resolve_right (by rintro ⟨h1, _⟩; exact absurd h1.symm (by simp))).2⟩⟩)
        · subst he
          have := invoke_callback_handler_mem cfg s ctx Phase.ioCb none cb [fd, evt]
            cb [fd, evt] true hm1
          exact Or.inr (Or.inr ⟨cb, [fd, evt], true, rfl, Or.inr ⟨rfl,
            ((this.2.2).resolve_left (by rintro ⟨h1, _⟩; exact absurd h1.symm (by simp))).2⟩⟩)
      rcases hins : invoke_callback cfg s ctx Phase.ioCb none cb [fd, evt]
        with ⟨s1, c1, e1, ab⟩
      rw [hins] at hlift
      cases ab with
      | true =>
          have hres : dispatchFired cfg ((cb, fd, evt) :: rest) s ctx = (s1, c1, e1, true) := by
            simp [dispatchFired, hins]
          rw [hres] at hm
          exact hlift hm
      | false =>
          rcases hd : dispatchFired cfg rest s1 c1 with ⟨s2, c2, e2, ab2⟩
          have hres : dispatchFired cfg ((cb, fd, evt) :: rest) s ctx
              = (s2, c2, e1 ++ e2, ab2) := by
            simp [dispatchFired, hins, hd]
          rw [hres] at hm
          rcases List.mem_append.mp hm with h1 | h2
          · exact hlift h1
          · have := ih s1 c1 ev (by rw [hd]; exact h2)
            rcases this with ⟨trip2, hmem, he⟩ | hrest | hrest
            · exact Or.inl ⟨trip2, List.mem_cons_of_mem _ hmem, he⟩
            · exact Or.inr (Or.inl hrest)
            · exact Or.inr (Or.inr hrest)

theorem dispatchHandles_noabort (cfg : LoopCfg) (ph : Phase)
    (hnb : ∀ i, cfg.prog i ≠ CbAct.raiseB) :
    ∀ (l : List ℕ) (s : LoopState) (ctx : Ctx),
      (dispatchHandles cfg ph l s ctx).2.2.2 = false := by
  intro l
  induction l with
  | nil => intro s ctx; simp [dispatchHandles]
  | cons hid rest ih =>
      intro s ctx
      rcases hins : invoke_handle cfg s ctx ph hid with ⟨s1, c1, e1, ab⟩
      cases ab with
      | true =>
          exfalso
          have := (invoke_handle_abort_iff cfg s ctx ph hid).mp (by rw [hins])
          exact hnb _ this.2
      | false =>
          rcases hd : dispatchHandles cfg ph rest s1 c1 with ⟨s2, c2, e2, ab2⟩
          have hres : dispatchHandles cfg ph (hid :: rest) s ctx = (s2, c2, e1 ++ e2, ab2) := by
            simp [dispatchHandles, hins, hd]
          rw [hres]
          have := ih s1 c1
          rw [hd] at this
          exact this

theorem dispatchFired_noabort (cfg : LoopCfg)
    (hnb : ∀ i, cfg.prog i ≠ CbAct.raiseB) :
    ∀ (l : List (ℕ × ℕ × ℕ)) (s : LoopState) (ctx : Ctx),
      (dispatchFired cfg l s ctx).2.2.2 = false := by
  intro l
  induction l with
  | nil => intro s ctx; simp [dispatchFired]
  | cons trip rest ih =>
      intro s ctx
      rcases trip with ⟨cb, fd, evt⟩
      rcases hins : invoke_callback cfg s ctx Phase.ioCb none cb [fd, evt]
        with ⟨s1, c1, e1, ab⟩
      cases ab with
      | true =>
          exfalso
          have := (invoke_callback_abort_iff cfg s ctx Phase.ioCb none cb [fd, evt]).mp
            (by rw [hins])
          exact hnb _ this
      | false =>
          rcases hd : dispatchFired cfg rest s1 c1 with ⟨s2, c2, e2, ab2⟩
          have hres : dispatchFired cfg ((cb, fd, evt) :: rest) s ctx
              = (s2, c2, e1 ++ e2, ab2) := by
            simp [dispatchFired, hins, hd]
          rw [hres]
          have := ih s1 c1
          rw [hd] at this
          exact this

theorem dispatchHandles_count (cfg : LoopCfg) (ph : Phase) :
    ∀ (l : List ℕ) (s : LoopState) (ctx : Ctx),
      ((dispatchHandles cfg ph l s ctx).2.2.1).countP isHandlerB
        = ((dispatchHandles cfg ph l s ctx).2.2.1).countP (raisingB cfg) := by
  intro l
  induction l with
  | nil => intro s ctx; simp [dispatchHandles]
  | cons hid rest ih =>
      intro s ctx
      have h1 := invoke_handle_count_eq cfg s ctx ph hid
      rcases hins : invoke_handle cfg s ctx ph hid with ⟨s1, c1, e1, ab⟩
      rw [hins] at h1
      cases ab with
      | true =>
          have hres : dispatchHandles cfg ph (hid :: rest) s ctx = (s1, c1, e1, true) := by
            simp [dispatchHandles, hins]
          rw [hres]
          exact h1
      | false =>
          have h2 := ih s1 c1
          rcases hd : dispatchHandles cfg ph rest s1 c1 with ⟨s2, c2, e2, ab2⟩
          rw [hd] at h2
          have hres : dispatchHandles cfg ph (hid :: rest) s ctx = (s2, c2, e1 ++ e2, ab2) := by
            simp [dispatchHandles, hins, hd]
          rw [hres]
          have h1e : e1.countP isHandlerB = e1.countP (raisingB cfg) := h1
          have h2e : e2.countP isHandlerB = e2.countP (raisingB cfg) := h2
          simp only [List.countP_append]
          omega

theorem dispatchFired_count (cfg : LoopCfg) :
    ∀ (l : List (ℕ × ℕ × ℕ)) (s : LoopState) (ctx : Ctx),
      ((dispatchFired cfg l s ctx).2.2.1).countP isHandlerB
        = ((dispatchFired cfg l s ctx).2.2.1).countP (raisingB cfg) := by
  intro l
  induction l with
  | nil => intro s ctx; simp [dispatchFired]
  | cons trip rest ih =>
      intro s ctx
      rcases trip with ⟨cb, fd, evt⟩
      have h1 := invoke_callback_count_eq cfg s ctx Phase.ioCb none cb [fd, evt]
      rcases hins : invoke_callback cfg s ctx Phase.ioCb none cb [fd, evt]
        with ⟨s1, c1, e1, ab⟩
      rw [hins] at h1
      cases ab with
      | true =>
          have hres : dispatchFired cfg ((cb, fd, evt) :: rest) s ctx = (s1, c1, e1, true) := by
            simp [dispatchFired, hins]
          rw [hres]
          exact h1
      | false =>
          have h2 := ih s1 c1
          rcases hd : dispatchFired cfg rest s1 c1 with ⟨s2, c2, e2, ab2⟩
          rw [hd] at h2
          have hres : dispatchFired cfg ((cb, fd, evt) :: rest) s ctx
              = (s2, c2, e1 ++ e2, ab2) := by
            simp [dispatchFired, hins, hd]
          rw [hres]
          have h1e : e1.countP isHandlerB = e1.countP (raisingB cfg) := h1
          have h2e : e2.countP isHandlerB = e2.countP (raisingB cfg) := h2
          simp only [List.countP_append]
          omega

theorem dispatchHandles_abort_handler (cfg : LoopCfg) (ph : Phase) :
    ∀ (l : List ℕ) (s : LoopState) (ctx : Ctx),
      (dispatchHandles cfg ph l s ctx).2.2.2 = true →
      ∃ c2 kw2, Ev.handlerCall c2 kw2 true ∈ (dispatchHandles cfg ph l s ctx).2.2.1 := by
  intro l
  induction l with
  | nil => intro s ctx hab; simp [dispatchHandles] at hab
  | cons hid rest ih =>
      intro s ctx hab
      rcases hins : invoke_handle cfg s ctx ph hid with ⟨s1, c1, e1, ab⟩
      cases ab with
      | true =>
          have hres : dispatchHandles cfg ph (hid :: rest) s ctx = (s1, c1, e1, true) := by
            simp [dispatchHandles, hins]
          rw [hres]
          have := invoke_handle_abort_handler cfg s ctx ph hid (by rw [hins])
          rw [hins] at this
          exact this
      | false =>
          rcases hd : dispatchHandles cfg ph rest s1 c1 with ⟨s2, c2, e2, ab2⟩
          have hres : dispatchHandles cfg ph (hid :: rest) s ctx = (s2, c2, e1 ++ e2, ab2) := by
            simp [dispatchHandles, hins, hd]
          rw [hres] at hab ⊢
          have := ih s1 c1 (by rw [hd]; exact hab)
          rw [hd] at this
          rcases this with ⟨c2v, kw2, hmem⟩
          exact ⟨c2v, kw2, List.mem_append.mpr (Or.inr hmem)⟩

theorem dispatchFired_abort_handler (cfg : LoopCfg) :
    ∀ (l : List (ℕ × ℕ × ℕ)) (s : LoopState) (ctx : Ctx),
      (dispatchFired cfg l s ctx).2.2.2 = true →
      ∃ c2 kw2, Ev.handlerCall c2 kw2 true ∈ (dispatchFired cfg l s ctx).2.2.1 := by
  intro l
  induction l with
  | nil => intro s ctx hab; simp [dispatchFired] at hab
  | cons trip rest ih =>
      intro s ctx hab
      rcases trip with ⟨cb, fd, evt⟩
      rcases hins : invoke_callback cfg s ctx Phase.ioCb none cb [fd, evt]
        with ⟨s1, c1, e1, ab⟩
      cases ab with
      | true =>
          have hres : dispatchFired cfg ((cb, fd, evt) :: rest) s ctx = (s1, c1, e1, true) := by
            simp [dispatchFired, hins]
          rw [hres]
          have hp := (invoke_callback_abort_iff cfg s ctx Phase.ioCb none cb [fd, evt]).mp
            (by rw [hins])
          have := invoke_callback_eq_raiseB cfg s ctx Phase.ioCb none cb [fd, evt] hp
          rw [hins] at this
          have he1 : e1 = [Ev.invoke Phase.ioCb none cb, Ev.handlerCall cb [fd, evt] true] := by
            have := congrArg (fun q : LoopState × Ctx × List Ev × Bool => q.2.2.1) this
            simpa using this
          exact ⟨cb, [fd, evt], by rw [he1]; simp⟩
      | false =>
          rcases hd : dispatchFired cfg rest s1 c1 with ⟨s2, c2, e2, ab2⟩
          have hres : dispatchFired cfg ((cb, fd, evt) :: rest) s ctx
              = (s2, c2, e1 ++ e2, ab2) := by
            simp [dispatchFired, hins, hd]
          rw [hres] at hab ⊢
          have := ih s1 c1 (by rw [hd]; exact hab)
          rw [hd] at this
          rcases this with ⟨c2v, kw2, hmem⟩
          exact ⟨c2v, kw2, List.mem_append.mpr (Or.inr hmem)⟩

theorem dispatchHandles_complete (cfg : LoopCfg) (ph : Phase) :
    ∀ (l : List ℕ) (s : LoopState) (ctx : Ctx),
      (dispatchHandles cfg ph l s ctx).2.2.2 = false →
      ∀ hid ∈ l,
        Ev.skipCancelled ph hid ∈ (dispatchHandles cfg ph l s ctx).2.2.1 ∨
        ∃ cb, Ev.invoke ph (some hid) cb ∈ (dispatchHandles cfg ph l s ctx).2.2.1 := by
  intro l
  induction l with
  | nil => intro s ctx _ hid hmem; simp at hmem
  | cons hid0 rest ih =>
      intro s ctx hab hid hmem
      rcases hins : invoke_handle cfg s ctx ph hid0 with ⟨s1, c1, e1, ab⟩
      cases ab with
      | true =>
          have hres : dispatchHandles cfg ph (hid0 :: rest) s ctx = (s1, c1, e1, true) := by
            simp [dispatchHandles, hins]
          rw [hres] at hab
          simp at hab
      | false =>
          rcases hd : dispatchHandles cfg ph rest s1 c1 with ⟨s2, c2, e2, ab2⟩
          have hres : dispatchHandles cfg ph (hid0 :: rest) s ctx
              = (s2, c2, e1 ++ e2, ab2) := by
            simp [dispatchHandles, hins, hd]
          rw [hres] at hab ⊢
          rcases List.mem_cons.mp hmem with rfl | hmem2
          · have := invoke_handle_complete cfg s ctx ph hid
            rw [hins] at this
            rcases this with hsk | ⟨cb, hin⟩
            · exact Or.inl (List.mem_append.mpr (Or.inl hsk))
            · exact Or.inr ⟨cb, List.mem_append.mpr (Or.inl hin)⟩
          · have := ih s1 c1 (by rw [hd]; exact hab) hid hmem2
            rw [hd] at this
            rcases this with hsk | ⟨cb, hin⟩
            · exact Or.inl (List.mem_append.mpr (Or.inr hsk))
            · exact Or.inr ⟨cb, List.mem_append.mpr (Or.inr hin)⟩

theorem invoke_callback_io_filter (cfg : LoopCfg) (s : LoopState) (ctx : Ctx)
    (cb : ℕ) (kw : List ℕ)
    (hab : (invoke_callback cfg s ctx Phase.ioCb none cb kw).2.2.2 = false) :
    ((invoke_callback cfg s ctx Phase.ioCb none cb kw).2.2.1).filterMap ioInvokeCb
      = [cb] := by
  rcases invoke_callback_cases cfg s ctx Phase.ioCb none cb kw with
    ⟨s2, _, he | he⟩ | ⟨_, he⟩ | ⟨_, he⟩
  · rw [he]; simp [ioInvokeCb]
  · rw [he]; simp [ioInvokeCb]
  · rw [he]; simp [ioInvokeCb]
  · rw [he] at hab; simp at hab

theorem dispatchFired_exact (cfg : LoopCfg) :
    ∀ (l : List (ℕ × ℕ × ℕ)) (s : LoopState) (ctx : Ctx),
      (dispatchFired cfg l s ctx).2.2.2 = false →
      ((dispatchFired cfg l s ctx).2.2.1).filterMap ioInvokeCb
        = l.map (fun x => x.1) := by
  intro l
  induction l with
  | nil => intro s ctx _; simp [dispatchFired]
  | cons trip rest ih =>
      intro s ctx hab
      rcases trip with ⟨cb, fd, evt⟩
      rcases hins : invoke_callback cfg s ctx Phase.ioCb none cb [fd, evt]
        with ⟨s1, c1, e1, ab⟩
      cases ab with
      | true =>
          have hres : dispatchFired cfg ((cb, fd, evt) :: rest) s ctx = (s1, c1, e1, true) := by
            simp [dispatchFired, hins]
          rw [hres] at hab
          simp at hab
      | false =>
          rcases hd : dispatchFired cfg rest s1 c1 with ⟨s2, c2, e2, ab2⟩
          have hres : dispatchFired cfg ((cb, fd, evt) :: rest) s ctx
              = (s2, c2, e1 ++ e2, ab2) := by
            simp [dispatchFired, hins, hd]
          rw [hres] at hab ⊢
          have h1 := invoke_callback_io_filter cfg s ctx cb [fd, evt] (by rw [hins])
          rw [hins] at h1
          have h2 := ih s1 c1 (by rw [hd]; exact hab)
          rw [hd] at h2
          simp only [List.filterMap_append, List.map]
          rw [h1, h2]
          rfl

theorem dispatchHandles_io_filter_nil (cfg : LoopCfg) (ph : Phase)
    (hph : ph ≠ Phase.ioCb) (l : List ℕ) (s : LoopState) (ctx : Ctx) :
    ((dispatchHandles cfg ph l s ctx).2.2.1).filterMap ioInvokeCb = [] := by
  rw [List.filterMap_eq_nil_iff]
  intro ev hm
  rcases dispatchHandles_evs_mem cfg ph l s ctx ev hm with
    ⟨hid, _, he⟩ | ⟨hid, _, cb, he⟩ | ⟨c2, he⟩ | ⟨c2, kw2, b, he, _⟩
  · rw [he]; rfl
  · rw [he]
    cases ph with
    | early => rfl
    | ioCb => exact absurd rfl hph
    | late => rfl
  · rw [he]; rfl
  · rw [he]; rfl

theorem pop_pending_mem (s : LoopState) (t : ℚ) (hid : ℕ)
    (hm : hid ∈ (pop_pending s t).1) :
    (getHandle s.handles hid).cancelled = false ∧
    ∃ e ∈ s.sched, e.hid = hid ∧ keyLE e.key (some t) = true := by
  simp only [pop_pending] at hm
  rcases List.mem_map.mp hm with ⟨e, hmem, he⟩
  rcases List.mem_filter.mp hmem with ⟨hmem2, hcanc⟩
  rcases List.mem_filter.mp hmem2 with ⟨hmem3, hdue⟩
  subst he
  refine ⟨by simpa using hcanc, e, hmem3, rfl, hdue⟩

/-- Numeric rank of a phase in dispatch order. -/
def phaseIdx : Phase → ℕ
  | Phase.early => 0
  | Phase.ioCb => 1
  | Phase.late => 2

theorem pairwise_const (p : Phase) :
    ∀ (l : List Phase), (∀ x ∈ l, x = p) →
      l.Pairwise (fun a b => phaseIdx a ≤ phaseIdx b) := by
  intro l
  induction l with
  | nil => intro _; exact List.Pairwise.nil
  | cons a rest ih =>
      intro hall
      refine List.Pairwise.cons ?_ (ih fun x hx => hall x (List.mem_cons_of_mem _ hx))
      intro b hb
      rw [hall a (List.mem_cons_self _ _), hall b (List.mem_cons_of_mem _ hb)]

theorem pairwise_three (A B C : List Phase)
    (hA : ∀ x ∈ A, x = Phase.early) (hB : ∀ x ∈ B, x = Phase.ioCb)
    (hC : ∀ x ∈ C, x = Phase.late) :
    (A ++ (B ++ C)).Pairwise (fun a b => phaseIdx a ≤ phaseIdx b) := by
  rw [List.pairwise_append]
  refine ⟨pairwise_const _ A hA, ?_, ?_⟩
  · rw [List.pairwise_append]
    refine ⟨pairwise_const _ B hB, pairwise_const _ C hC, ?_⟩
    intro a ha b hb
    rw [hB a ha, hC b hb]
    exact Nat.le_succ 1
  · intro a ha b hb
    rw [hA a ha]
    rcases List.mem_append.mp hb with h | h
    · rw [hB b h]; exact Nat.zero_le 1
    · rw [hC b h]; exact Nat.zero_le 2

theorem filterMap_evPhase_all (evs : List Ev) (p : Phase)
    (hall : ∀ ev ∈ evs, evPhase ev = some p ∨ evPhase ev = none) :
    ∀ x ∈ evs.filterMap evPhase, x = p := by
  intro x hx
  rcases List.mem_filterMap.mp hx with ⟨ev, hmem, he⟩
  rcases hall ev hmem with h | h
  · rw [h] at he; exact (Option.some_inj.mp he).symm
  · rw [h] at he; exact absurd he (by simp)

theorem dispatchHandles_phase (cfg : LoopCfg) (ph : Phase) (l : List ℕ)
    (s : LoopState) (ctx : Ctx) :
    ∀ ev ∈ (dispatchHandles cfg ph l s ctx).2.2.1,
      evPhase ev = some ph ∨ evPhase ev = none := by
  intro ev hm
  rcases dispatchHandles_evs_mem cfg ph l s ctx ev hm with
    ⟨hid, _, he⟩ | ⟨hid, _, cb, he⟩ | ⟨c2, he⟩ | ⟨c2, kw2, b, he, _⟩
  · rw [he]; right; rfl
  · rw [he]; left; rfl
  · rw [he]; right; rfl
  · rw [he]; right; rfl

theorem dispatchFired_phase (cfg : LoopCfg) (l : List (ℕ × ℕ × ℕ))
    (s : LoopState) (ctx : Ctx) :
    ∀ ev ∈ (dispatchFired cfg l s ctx).2.2.1,
      evPhase ev = some Phase.ioCb ∨ evPhase ev = none := by
  intro ev hm
  rcases dispatchFired_evs_mem cfg l s ctx ev hm with
    ⟨trip, _, he⟩ | ⟨c2, he⟩ | ⟨c2, kw2, b, he, _⟩
  · rw [he]; left; rfl
  · rw [he]; right; rfl
  · rw [he]; right; rfl

theorem computeWait_handles (cfg : LoopCfg) (e : List ℕ) (ne : Option (Option ℚ))
    (s : LoopState) :
    (computeWait cfg e ne s).2.handles = s.handles ∧
    (computeWait cfg e ne s).2.nextHid = s.nextHid ∧
    (computeWait cfg e ne s).2.sched = s.sched := by
  by_cases he : e.isEmpty
  · cases ne with
    | none => simp [computeWait, he]
    | some k =>
        cases k with
        | none => simp [computeWait, he]
        | some d => simp [computeWait, he]
  · simp [computeWait, he]

theorem stepPre_eq (cfg : LoopCfg) (s : LoopState) :
    stepPre cfg s
      = ((pop_pending { s with clkIdx := s.clkIdx + 1 } (cfg.clock s.clkIdx + cfg.res)).1,
         (computeWait cfg
            (pop_pending { s with clkIdx := s.clkIdx + 1 }
              (cfg.clock s.clkIdx + cfg.res)).1
            (next_event (pop_pending { s with clkIdx := s.clkIdx + 1 }
              (cfg.clock s.clkIdx + cfg.res)).2)
            (pop_pending { s with clkIdx := s.clkIdx + 1 }
              (cfg.clock s.clkIdx + cfg.res)).2).1,
         (computeWait cfg
            (pop_pending { s with clkIdx := s.clkIdx + 1 }
              (cfg.clock s.clkIdx + cfg.res)).1
            (next_event (pop_pending { s with clkIdx := s.clkIdx + 1 }
              (cfg.clock s.clkIdx + cfg.res)).2)
            (pop_pending { s with clkIdx := s.clkIdx + 1 }
              (cfg.clock s.clkIdx + cfg.res)).2).2) := by
  rcases hp : pop_pending { s with clkIdx := s.clkIdx + 1 } (cfg.clock s.clkIdx + cfg.res)
    with ⟨early, sB⟩
  rcases hw : computeWait cfg early (next_event sB) sB with ⟨w, sC⟩
  simp [stepPre, hp, hw]

theorem stepPre2_eq (cfg : LoopCfg) (s : LoopState) :
    stepPre2 cfg s
      = ((stepPre cfg s).1, (stepPre cfg s).2.1,
         cfg.clock (stepPre cfg s).2.2.clkIdx + cfg.res,
         { (stepPre cfg s).2.2 with clkIdx := (stepPre cfg s).2.2.clkIdx + 1 }) := by
  rcases hp : stepPre cfg s with ⟨early, w, sC⟩
  simp [stepPre2, hp]

theorem run_step_eq (cfg : LoopCfg) (s : LoopState) :
    run_step cfg s
      = ((stepBody cfg (stepPre2 cfg s).1 (cfg.selectFn (stepPre2 cfg s).2.1)
            (stepPre2 cfg s).2.2.1 (stepPre2 cfg s).2.2.2).1,
         Ev.selectCall (stepPre2 cfg s).2.1 ::
          (stepBody cfg (stepPre2 cfg s).1 (cfg.selectFn (stepPre2 cfg s).2.1)
            (stepPre2 cfg s).2.2.1 (stepPre2 cfg s).2.2.2).2.1,
         (stepBody cfg (stepPre2 cfg s).1 (cfg.selectFn (stepPre2 cfg s).2.1)
            (stepPre2 cfg s).2.2.1 (stepPre2 cfg s).2.2.2).2.2) := by
  rcases hp : stepPre2 cfg s with ⟨early, w, endAt, sD⟩
  rcases hb : stepBody cfg early (cfg.selectFn w) endAt sD with ⟨sZ, evs, ab⟩
  simp [run_step, hp, hb]

theorem evolve_stepPre2 (cfg : LoopCfg) (s : LoopState) :
    Evolve s (stepPre2 cfg s).2.2.2 := by
  rw [stepPre2_eq, stepPre_eq]
  rcases computeWait_handles cfg
    (pop_pending { s with clkIdx := s.clkIdx + 1 } (cfg.clock s.clkIdx + cfg.res)).1
    (next_event (pop_pending { s with clkIdx := s.clkIdx + 1 }
      (cfg.clock s.clkIdx + cfg.res)).2)
    (pop_pending { s with clkIdx := s.clkIdx + 1 } (cfg.clock s.clkIdx + cfg.res)).2
    with ⟨hh, hn, _⟩
  exact evolve_of_same_handles (by simpa using hh) (by simpa using hn)

theorem inv_clk (s : LoopState) (k : ℕ) (hinv : LoopInv s) :
    LoopInv { s with clkIdx := k } := hinv

theorem inv_stepPre2 (cfg : LoopCfg) (s : LoopState) (hinv : LoopInv s) :
    LoopInv (stepPre2 cfg s).2.2.2 := by
  rw [stepPre2_eq, stepPre_eq]
  exact inv_clk _ _ (inv_computeWait cfg _ _ _ (inv_pop_pending _ _ (inv_clk s _ hinv)))

theorem evolve_stepEarlyFired (cfg : LoopCfg) (early : List ℕ)
    (fired : List (ℕ × ℕ × ℕ)) (sD : LoopState) :
    Evolve sD (stepEarlyFired cfg early fired sD).1 := by
  have h1 := evolve_dispatchHandles cfg Phase.early early sD cfg.ambient
  rcases hde : dispatchHandles cfg Phase.early early sD cfg.ambient with ⟨sE, cE, evE, abE⟩
  rw [hde] at h1
  cases abE with
  | true => simpa [stepEarlyFired, hde] using h1
  | false =>
      have h2 := evolve_dispatchFired cfg fired sE cE
      rcases hdf : dispatchFired cfg fired sE cE with ⟨sF, cF, evF, abF⟩
      rw [hdf] at h2
      have : (stepEarlyFired cfg early fired sD).1 = sF := by
        simp [stepEarlyFired, hde, hdf]
      rw [this]
      exact evolve_trans h1 h2

theorem inv_stepEarlyFired (cfg : LoopCfg) (early : List ℕ)
    (fired : List (ℕ × ℕ × ℕ)) (sD : LoopState) (hinv : LoopInv sD) :
    LoopInv (stepEarlyFired cfg early fired sD).1 := by
  have h1 := inv_dispatchHandles cfg Phase.early early sD cfg.ambient hinv
  rcases hde : dispatchHandles cfg Phase.early early sD cfg.ambient with ⟨sE, cE, evE, abE⟩
  rw [hde] at h1
  cases abE with
  | true => simpa [stepEarlyFired, hde] using h1
  | false =>
      have h2 := inv_dispatchFired cfg fired sE cE h1
      rcases hdf : dispatchFired cfg fired sE cE with ⟨sF, cF, evF, abF⟩
      rw [hdf] at h2
      have : (stepEarlyFired cfg early fired sD).1 = sF := by
        simp [stepEarlyFired, hde, hdf]
      rw [this]
      exact h2

theorem evolve_stepBody (cfg : LoopCfg) (early : List ℕ)
    (fired : List (ℕ × ℕ × ℕ)) (endAt : ℚ) (sD : LoopState) :
    Evolve sD (stepBody cfg early fired endAt sD).1 := by
  have h1 := evolve_stepEarlyFired cfg early fired sD
  rcases hef : stepEarlyFired cfg early fired sD with ⟨sF, cF, evEF, abEF⟩
  rw [hef] at h1
  cases abEF with
  | true => simpa [stepBody, hef] using h1
  | false =>
      rcases hpl : pop_pending sF endAt with ⟨lateL, sG⟩
      have h2 : Evolve sF sG := by
        have := evolve_pop_pending sF endAt
        rw [hpl] at this
        exact this
      have h3 := evolve_dispatchHandles cfg Phase.late lateL sG cF
      rcases hdl : dispatchHandles cfg Phase.late lateL sG cF with ⟨sH, cH, evL, abL⟩
      rw [hdl] at h3
      have : (stepBody cfg early fired endAt sD).1 = sH := by
        simp [stepBody, hef, hpl, hdl]
      rw [this]
      exact evolve_trans h1 (evolve_trans h2 h3)

theorem inv_stepBody (cfg : LoopCfg) (early : List ℕ)
    (fired : List (ℕ × ℕ × ℕ)) (endAt : ℚ) (sD : LoopState) (hinv : LoopInv sD) :
    LoopInv (stepBody cfg early fired endAt sD).1 := by
  have h1 := inv_stepEarlyFired cfg early fired sD hinv
  rcases hef : stepEarlyFired cfg early fired sD with ⟨sF, cF, evEF, abEF⟩
  rw [hef] at h1
  cases abEF with
  | true => simpa [stepBody, hef] using h1
  | false =>
      rcases hpl : pop_pending sF endAt with ⟨lateL, sG⟩
      have h2 : LoopInv sG := by
        have := inv_pop_pending sF endAt h1
        rw [hpl] at this
        exact this
      have h3 := inv_dispatchHandles cfg Phase.late lateL sG cF h2
      rcases hdl : dispatchHandles cfg Phase.late lateL sG cF with ⟨sH, cH, evL, abL⟩
      rw [hdl] at h3
      have : (stepBody cfg early fired endAt sD).1 = sH := by
        simp [stepBody, hef, hpl, hdl]
      rw [this]
      exact h3

theorem evolve_run_step (cfg : LoopCfg) (s : LoopState) :
    Evolve s (run_step cfg s).1 := by
  rw [run_step_eq]
  exact evolve_trans (evolve_stepPre2 cfg s) (evolve_stepBody cfg _ _ _ _)

theorem inv_run_step (cfg : LoopCfg) (s : LoopState) (hinv : LoopInv s) :
    LoopInv (run_step cfg s).1 := by
  rw [run_step_eq]
  exact inv_stepBody cfg _ _ _ _ (inv_stepPre2 cfg s hinv)

theorem stepEarlyFired_cases (cfg : LoopCfg) (early : List ℕ)
    (fired : List (ℕ × ℕ × ℕ)) (sD : LoopState) :
    (∃ sE cE evE, dispatchHandles cfg Phase.early early sD cfg.ambient
        = (sE, cE, evE, true) ∧
      stepEarlyFired cfg early fired sD = (sE, cE, evE, true)) ∨
    (∃ sE cE evE sF cF evF abF,
      dispatchHandles cfg Phase.early early sD cfg.ambient = (sE, cE, evE, false) ∧
      dispatchFired cfg fired sE cE = (sF, cF, evF, abF) ∧
      stepEarlyFired cfg early fired sD = (sF, cF, evE ++ evF, abF)) := by
  rcases hde : dispatchHandles cfg Phase.early early sD cfg.ambient with ⟨sE, cE, evE, abE⟩
  cases abE with
  | true => exact Or.inl ⟨sE, cE, evE, rfl, by simp [stepEarlyFired, hde]⟩
  | false =>
      rcases hdf : dispatchFired cfg fired sE cE with ⟨sF, cF, evF, abF⟩
      exact Or.inr ⟨sE, cE, evE, sF, cF, evF, abF, rfl, hdf,
        by simp [stepEarlyFired, hde, hdf]⟩

theorem stepBody_cases (cfg : LoopCfg) (early : List ℕ)
    (fired : List (ℕ × ℕ × ℕ)) (endAt : ℚ) (sD : LoopState) :
    (∃ sF cF evEF, stepEarlyFired cfg early fired sD = (sF, cF, evEF, true) ∧
      stepBody cfg early fired endAt sD = (sF, evEF, true)) ∨
    (∃ sF cF evEF lateL sG sH cH evL abL,
      stepEarlyFired cfg early fired sD = (sF, cF, evEF, false) ∧
      pop_pending sF endAt = (lateL, sG) ∧
      dispatchHandles cfg Phase.late lateL sG cF = (sH, cH, evL, abL) ∧
      stepBody cfg early fired endAt sD = (sH, evEF ++ evL, abL)) := by
  rcases hef : stepEarlyFired cfg early fired sD with ⟨sF, cF, evEF, abEF⟩
  cases abEF with
  | true => exact Or.inl ⟨sF, cF, evEF, rfl, by simp [stepBody, hef]⟩
  | false =>
      rcases hpl : pop_pending sF endAt with ⟨lateL, sG⟩
      rcases hdl : dispatchHandles cfg Phase.late lateL sG cF with ⟨sH, cH, evL, abL⟩
      exact Or.inr ⟨sF, cF, evEF, lateL, sG, sH, cH, evL, abL, rfl, hpl, hdl,
        by simp [stepBody, hef, hpl, hdl]⟩

theorem stepBody_noabort (cfg : LoopCfg) (hnb : ∀ i, cfg.prog i ≠ CbAct.raiseB)
    (early : List ℕ) (fired : List (ℕ × ℕ × ℕ)) (endAt : ℚ) (sD : LoopState) :
    (stepBody cfg early fired endAt sD).2.2 = false := by
  rcases stepBody_cases cfg early fired endAt sD with
    ⟨sF, cF, evEF, hef, hb⟩ | ⟨sF, cF, evEF, lateL, sG, sH, cH, evL, abL, hef, hpl, hdl, hb⟩
  · exfalso
    rcases stepEarlyFired_cases cfg early fired sD with
      ⟨sE, cE, evE, hde, hef2⟩ | ⟨sE, cE, evE, sF2, cF2, evF, abF, hde, hdf, hef2⟩
    · have := dispatchHandles_noabort cfg Phase.early hnb early sD cfg.ambient
      rw [hde] at this
      simp at this
    · rw [hef2] at hef
      have habf : abF = true := by
        have := congrArg (fun q : LoopState × Ctx × List Ev × Bool => q.2.2.2) hef
        simpa using this
      have := dispatchFired_noabort cfg hnb fired sE cE
      rw [hdf] at this
      rw [habf] at this
      simp at this
  · rw [hb]
    have := dispatchHandles_noabort cfg Phase.late hnb lateL sG cF
    rw [hdl] at this
    exact this

theorem stepBody_count (cfg : LoopCfg) (early : List ℕ)
    (fired : List (ℕ × ℕ × ℕ)) (endAt : ℚ) (sD : LoopState) :
    ((stepBody cfg early fired endAt sD).2.1).countP isHandlerB
      = ((stepBody cfg early fired endAt sD).2.1).countP (raisingB cfg) := by
  have hEF : ∀ sF cF evEF abEF,
      stepEarlyFired cfg early fired sD = (sF, cF, evEF, abEF) →
      evEF.countP isHandlerB = evEF.countP (raisingB cfg) := by
    intro sF cF evEF abEF hef
    rcases stepEarlyFired_cases cfg early fired sD with
      ⟨sE, cE, evE, hde, hef2⟩ | ⟨sE, cE, evE, sF2, cF2, evF, abF, hde, hdf, hef2⟩
    · rw [hef2] at hef
      have hev : evEF = evE := by
        have := congrArg (fun q : LoopState × Ctx × List Ev × Bool => q.2.2.1) hef
        simpa using this.symm
      subst hev
      have := dispatchHandles_count cfg Phase.early early sD cfg.ambient
      rw [hde] at this
      exact this
    · rw [hef2] at hef
      have hev : evEF = evE ++ evF := by
        have := congrArg (fun q : LoopState × Ctx × List Ev × Bool => q.2.2.1) hef
        simpa using this.symm
      subst hev
      have h1 := dispatchHandles_count cfg Phase.early early sD cfg.ambient
      rw [hde] at h1
      have h2 := dispatchFired_count cfg fired sE cE
      rw [hdf] at h2
      have h1e : evE.countP isHandlerB = evE.countP (raisingB cfg) := h1
      have h2e : evF.countP isHandlerB = evF.countP (raisingB cfg) := h2
      simp only [List.countP_append]
      omega
  rcases stepBody_cases cfg early fired endAt sD with
    ⟨sF, cF, evEF, hef, hb⟩ | ⟨sF, cF, evEF, lateL, sG, sH, cH, evL, abL, hef, hpl, hdl, hb⟩
  · rw [hb]
    exact hEF sF cF evEF true hef
  · rw [hb]
    have h1 := hEF sF cF evEF false hef
    have h2 := dispatchHandles_count cfg Phase.late lateL sG cF
    rw [hdl] at h2
    have h2e : evL.countP isHandlerB = evL.countP (raisingB cfg) := h2
    simp only [List.countP_append]
    omega

theorem stepEarlyFired_evs_mem (cfg : LoopCfg) (early : List ℕ)
    (fired : List (ℕ × ℕ × ℕ)) (sD : LoopState) (ev : Ev)
    (hm : ev ∈ (stepEarlyFired cfg early fired sD).2.2.1) :
    (∃ sE cE, ev ∈ (dispatchHandles cfg Phase.early early sD cfg.ambient).2.2.1 ∧
      dispatchHandles cfg Phase.early early sD cfg.ambient
        = (sE, cE, (dispatchHandles cfg Phase.early early sD cfg.ambient).2.2.1,
           (dispatchHandles cfg Phase.early early sD cfg.ambient).2.2.2)) ∨
    (∃ sE cE evE, dispatchHandles cfg Phase.early early sD cfg.ambient
        = (sE, cE, evE, false) ∧ ev ∈ (dispatchFired cfg fired sE cE).2.2.1) := by
  rcases stepEarlyFired_cases cfg early fired sD with
    ⟨sE, cE, evE, hde, hef⟩ | ⟨sE, cE, evE, sF, cF, evF, abF, hde, hdf, hef⟩
  · rw [hef] at hm
    exact Or.inl ⟨sE, cE, by rw [hde]; exact hm, by rw [hde]⟩
  · rw [hef] at hm
    rcases List.mem_append.mp hm with h | h
    · exact Or.inl ⟨sE, cE, by rw [hde]; exact h, by rw [hde]⟩
    · exact Or.inr ⟨sE, cE, evE, hde, by rw [hdf]; exact h⟩

theorem stepEarlyFired_handler_mem (cfg : LoopCfg) (early : List ℕ)
    (fired : List (ℕ × ℕ × ℕ)) (sD : LoopState) (c2 : ℕ) (kw2 : List ℕ) (b : Bool)
    (hm : Ev.handlerCall c2 kw2 b ∈ (stepEarlyFired cfg early fired sD).2.2.1) :
    (b = false ∧ cfg.prog c2 = CbAct.raiseE) ∨
    (b = true ∧ cfg.prog c2 = CbAct.raiseB) := by
  rcases stepEarlyFired_evs_mem cfg early fired sD _ hm with
    ⟨sE, cE, hmem, _⟩ | ⟨sE, cE, evE, _, hmem⟩
  · rcases dispatchHandles_evs_mem cfg Phase.early early sD cfg.ambient _ hmem with
      ⟨hid, _, he⟩ | ⟨hid, _, cb, he⟩ | ⟨c3, he⟩ | ⟨c3, kw3, b3, he, hpr⟩
    · exact absurd he (by simp)
    · exact absurd he (by simp)
    · exact absurd he (by simp)
    · obtain ⟨rfl, rfl, rfl⟩ := (by simpa using he : c2 = c3 ∧ kw2 = kw3 ∧ b = b3)
      exact hpr
  · rcases dispatchFired_evs_mem cfg fired sE cE _ hmem with
      ⟨trip, _, he⟩ | ⟨c3, he⟩ | ⟨c3, kw3, b3, he, hpr⟩
    · exact absurd he (by simp)
    · exact absurd he (by simp)
    · obtain ⟨rfl, rfl, rfl⟩ := (by simpa using he : c2 = c3 ∧ kw2 = kw3 ∧ b = b3)
      exact hpr

theorem stepBody_handler_mem (cfg : LoopCfg) (early : List ℕ)
    (fired : List (ℕ × ℕ × ℕ)) (endAt : ℚ) (sD : LoopState) (c2 : ℕ)
    (kw2 : List ℕ) (b : Bool)
    (hm : Ev.handlerCall c2 kw2 b ∈ (stepBody cfg early fired endAt sD).2.1) :
    (b = false ∧ cfg.prog c2 = CbAct.raiseE) ∨
    (b = true ∧ cfg.prog c2 = CbAct.raiseB) := by
  rcases stepBody_cases cfg early fired endAt sD with
    ⟨sF, cF, evEF, hef, hb⟩ | ⟨sF, cF, evEF, lateL, sG, sH, cH, evL, abL, hef, hpl, hdl, hb⟩
  · rw [hb] at hm
    exact stepEarlyFired_handler_mem cfg early fired sD c2 kw2 b (by rw [hef]; exact hm)
  · rw [hb] at hm
    rcases List.mem_append.mp hm with h | h
    · exact stepEarlyFired_handler_mem cfg early fired sD c2 kw2 b (by rw [hef]; exact h)
    · rcases dispatchHandles_evs_mem cfg Phase.late lateL sG cF _ (by rw [hdl]; exact h) with
        ⟨hid, _, he⟩ | ⟨hid, _, cb, he⟩ | ⟨c3, he⟩ | ⟨c3, kw3, b3, he, hpr⟩
      · exact absurd he (by simp)
      · exact absurd he (by simp)
      · exact absurd he (by simp)
      · obtain ⟨rfl, rfl, rfl⟩ := (by simpa using he : c2 = c3 ∧ kw2 = kw3 ∧ b = b3)
        exact hpr

theorem stepEarlyFired_observed_mem (cfg : LoopCfg) (early : List ℕ)
    (fired : List (ℕ × ℕ × ℕ)) (sD : LoopState) (c2 : ℕ) (v : Option ℕ)
    (hm : Ev.observed c2 v ∈ (stepEarlyFired cfg early fired sD).2.2.1) :
    v = some cfg.loopId := by
  rcases stepEarlyFired_evs_mem cfg early fired sD _ hm with
    ⟨sE, cE, hmem, _⟩ | ⟨sE, cE, evE, _, hmem⟩
  · rcases dispatchHandles_evs_mem cfg Phase.early early sD cfg.ambient _ hmem with
      ⟨hid, _, he⟩ | ⟨hid, _, cb, he⟩ | ⟨c3, he⟩ | ⟨c3, kw3, b3, he, _⟩
    · exact absurd he (by simp)
    · exact absurd he (by simp)
    · exact ((by simpa using he : c2 = c3 ∧ v = some cfg.loopId)).2
    · exact absurd he (by simp)
  · rcases dispatchFired_evs_mem cfg fired sE cE _ hmem with
      ⟨trip, _, he⟩ | ⟨c3, he⟩ | ⟨c3, kw3, b3, he, _⟩
    · exact absurd he (by simp)
    · exact ((by simpa using he : c2 = c3 ∧ v = some cfg.loopId)).2
    · exact absurd he (by simp)

theorem stepBody_observed_mem (cfg : LoopCfg) (early : List ℕ)
    (fired : List (ℕ × ℕ × ℕ)) (endAt : ℚ) (sD : LoopState) (c2 : ℕ) (v : Option ℕ)
    (hm : Ev.observed c2 v ∈ (stepBody cfg early fired endAt sD).2.1) :
    v = some cfg.loopId := by
  rcases stepBody_cases cfg early fired endAt sD with
    ⟨sF, cF, evEF, hef, hb⟩ | ⟨sF, cF, evEF, lateL, sG, sH, cH, evL, abL, hef, hpl, hdl, hb⟩
  · rw [hb] at hm
    exact stepEarlyFired_observed_mem cfg early fired sD c2 v (by rw [hef]; exact hm)
  · rw [hb] at hm
    rcases List.mem_append.mp hm with h | h
    · exact stepEarlyFired_observed_mem cfg early fired sD c2 v (by rw [hef]; exact h)
    · rcases dispatchHandles_evs_mem cfg Phase.late lateL sG cF _ (by rw [hdl]; exact h) with
        ⟨hid, _, he⟩ | ⟨hid, _, cb, he⟩ | ⟨c3, he⟩ | ⟨c3, kw3, b3, he, _⟩
      · exact absurd he (by simp)
      · exact absurd he (by simp)
      · exact ((by simpa using he : c2 = c3 ∧ v = some cfg.loopId)).2
      · exact absurd he (by simp)

theorem stepEarlyFired_invoke_mem (cfg : LoopCfg) (early : List ℕ)
    (fired : List (ℕ × ℕ × ℕ)) (sD : LoopState) (ph : Phase) (hid : ℕ) (cb : ℕ)
    (hm : Ev.invoke ph (some hid) cb ∈ (stepEarlyFired cfg early fired sD).2.2.1) :
    ph = Phase.early ∧ hid ∈ early := by
  rcases stepEarlyFired_evs_mem cfg early fired sD _ hm with
    ⟨sE, cE, hmem, _⟩ | ⟨sE, cE, evE, _, hmem⟩
  · rcases dispatchHandles_evs_mem cfg Phase.early early sD cfg.ambient _ hmem with
      ⟨hid2, hmem2, he⟩ | ⟨hid2, hmem2, cb2, he⟩ | ⟨c3, he⟩ | ⟨c3, kw3, b3, he, _⟩
    · exact absurd he (by simp)
    · obtain ⟨hph, rfl, _⟩ := (by simpa using he :
        ph = Phase.early ∧ hid = hid2 ∧ cb = cb2)
      exact ⟨hph, hmem2⟩
    · exact absurd he (by simp)
    · exact absurd he (by simp)
  · rcases dispatchFired_evs_mem cfg fired sE cE _ hmem with
      ⟨trip, _, he⟩ | ⟨c3, he⟩ | ⟨c3, kw3, b3, he, _⟩
    · exact absurd he (by simp)
    · exact absurd he (by simp)
    · exact absurd he (by simp)

theorem stepBody_invoke_mem (cfg : LoopCfg) (early : List ℕ)
    (fired : List (ℕ × ℕ × ℕ)) (endAt : ℚ) (sD : LoopState) (ph : Phase)
    (hid : ℕ) (cb : ℕ)
    (hm : Ev.invoke ph (some hid) cb ∈ (stepBody cfg early fired endAt sD).2.1) :
    (ph = Phase.early ∧ hid ∈ early) ∨
    (ph = Phase.late ∧
      ∃ sF cF evEF, stepEarlyFired cfg early fired sD = (sF, cF, evEF, false) ∧
        hid ∈ (pop_pending sF endAt).1) := by
  rcases stepBody_cases cfg early fired endAt sD with
    ⟨sF, cF, evEF, hef, hb⟩ | ⟨sF, cF, evEF, lateL, sG, sH, cH, evL, abL, hef, hpl, hdl, hb⟩
  · rw [hb] at hm
    exact Or.inl (stepEarlyFired_invoke_mem cfg early fired sD ph hid cb
      (by rw [hef]; exact hm))
  · rw [hb] at hm
    rcases List.mem_append.mp hm with h | h
    · exact Or.inl (stepEarlyFired_invoke_mem cfg early fired sD ph hid cb
        (by rw [hef]; exact h))
    · rcases dispatchHandles_evs_mem cfg Phase.late lateL sG cF _ (by rw [hdl]; exact h) with
        ⟨hid2, hmem2, he⟩ | ⟨hid2, hmem2, cb2, he⟩ | ⟨c3, he⟩ | ⟨c3, kw3, b3, he, _⟩
      · exact absurd he (by simp)
      · obtain ⟨hph, rfl, _⟩ := (by simpa using he :
          ph = Phase.late ∧ hid = hid2 ∧ cb = cb2)
        exact Or.inr ⟨hph, sF, cF, evEF, hef, by rw [hpl]; exact hmem2⟩
      · exact absurd he (by simp)
      · exact absurd he (by simp)

theorem stepEarlyFired_abort_handler (cfg : LoopCfg) (early : List ℕ)
    (fired : List (ℕ × ℕ × ℕ)) (sD : LoopState)
    (hab : (stepEarlyFired cfg early fired sD).2.2.2 = true) :
    ∃ c2 kw2, Ev.handlerCall c2 kw2 true ∈ (stepEarlyFired cfg early fired sD).2.2.1 := by
  rcases stepEarlyFired_cases cfg early fired sD with
    ⟨sE, cE, evE, hde, hef⟩ | ⟨sE, cE, evE, sF, cF, evF, abF, hde, hdf, hef⟩
  · rw [hef]
    have := dispatchHandles_abort_handler cfg Phase.early early sD cfg.ambient
      (by rw [hde])
    rw [hde] at this
    exact this
  · rw [hef] at hab ⊢
    have habf : abF = true := hab
    have := dispatchFired_abort_handler cfg fired sE cE (by rw [hdf, habf])
    rw [hdf] at this
    rcases this with ⟨c2, kw2, hmem⟩
    exact ⟨c2, kw2, List.mem_append.mpr (Or.inr hmem)⟩

theorem stepBody_abort_handler (cfg : LoopCfg) (early : List ℕ)
    (fired : List (ℕ × ℕ × ℕ)) (endAt : ℚ) (sD : LoopState)
    (hab : (stepBody cfg early fired endAt sD).2.2 = true) :
    ∃ c2 kw2, Ev.handlerCall c2 kw2 true ∈ (stepBody cfg early fired endAt sD).2.1 := by
  rcases stepBody_cases cfg early fired endAt sD with
    ⟨sF, cF, evEF, hef, hb⟩ | ⟨sF, cF, evEF, lateL, sG, sH, cH, evL, abL, hef, hpl, hdl, hb⟩
  · rw [hb]
    have := stepEarlyFired_abort_handler cfg early fired sD (by rw [hef])
    rw [hef] at this
    exact this
  · rw [hb] at hab ⊢
    have habl : abL = true := hab
    have := dispatchHandles_abort_handler cfg Phase.late lateL sG cF (by rw [hdl, habl])
    rw [hdl] at this
    rcases this with ⟨c2, kw2, hmem⟩
    exact ⟨c2, kw2, List.mem_append.mpr (Or.inr hmem)⟩

theorem stepEarlyFired_phase_decomp (cfg : LoopCfg) (early : List ℕ)
    (fired : List (ℕ × ℕ × ℕ)) (sD : LoopState) :
    ∃ A B, ((stepEarlyFired cfg early fired sD).2.2.1).filterMap evPhase = A ++ B ∧
      (∀ x ∈ A, x = Phase.early) ∧ (∀ x ∈ B, x = Phase.ioCb) := by
  rcases stepEarlyFired_cases cfg early fired sD with
    ⟨sE, cE, evE, hde, hef⟩ | ⟨sE, cE, evE, sF, cF, evF, abF, hde, hdf, hef⟩
  · refine ⟨evE.filterMap evPhase, [], by rw [hef]; simp, ?_, by simp⟩
    apply filterMap_evPhase_all
    have := dispatchHandles_phase cfg Phase.early early sD cfg.ambient
    rw [hde] at this
    exact this
  · refine ⟨evE.filterMap evPhase, evF.filterMap evPhase,
      by rw [hef]; simp [List.filterMap_append], ?_, ?_⟩
    · apply filterMap_evPhase_all
      have := dispatchHandles_phase cfg Phase.early early sD cfg.ambient
      rw [hde] at this
      exact this
    · apply filterMap_evPhase_all
      have := dispatchFired_phase cfg fired sE cE
      rw [hdf] at this
      exact this

theorem stepBody_phase_pairwise (cfg : LoopCfg) (early : List ℕ)
    (fired : List (ℕ × ℕ × ℕ)) (endAt : ℚ) (sD : LoopState) :
    (((stepBody cfg early fired endAt sD).2.1).filterMap evPhase).Pairwise
      (fun a b => phaseIdx a ≤ phaseIdx b) := by
  rcases stepBody_cases cfg early fired endAt sD with
    ⟨sF, cF, evEF, hef, hb⟩ | ⟨sF, cF, evEF, lateL, sG, sH, cH, evL, abL, hef, hpl, hdl, hb⟩
  · rw [hb]
    rcases stepEarlyFired_phase_decomp cfg early fired sD with ⟨A, B, hAB, hA, hB⟩
    rw [hef] at hAB
    simp only at hAB
    rw [hAB]
    have := pairwise_three A B [] hA hB (by simp)
    simpa using this
  · rw [hb]
    rcases stepEarlyFired_phase_decomp cfg early fired sD with ⟨A, B, hAB, hA, hB⟩
    rw [hef] at hAB
    simp only at hAB
    rw [List.filterMap_append, hAB, List.append_assoc]
    refine pairwise_three A B (evL.filterMap evPhase) hA hB ?_
    apply filterMap_evPhase_all
    have := dispatchHandles_phase cfg Phase.late lateL sG cF
    rw [hdl] at this
    exact this

theorem stepBody_early_complete (cfg : LoopCfg)
    (hnb : ∀ i, cfg.prog i ≠ CbAct.raiseB) (early : List ℕ)
    (fired : List (ℕ × ℕ × ℕ)) (endAt : ℚ) (sD : LoopState) :
    ∀ hid ∈ early,
      Ev.skipCancelled Phase.early hid ∈ (stepBody cfg early fired endAt sD).2.1 ∨
      ∃ cb, Ev.invoke Phase.early (some hid) cb
        ∈ (stepBody cfg early fired endAt sD).2.1 := by
  intro hid hmem
  rcases stepBody_cases cfg early fired endAt sD with
    ⟨sF, cF, evEF, hef, hb⟩ | ⟨sF, cF, evEF, lateL, sG, sH, cH, evL, abL, hef, hpl, hdl, hb⟩
  · exfalso
    have := stepBody_noabort cfg hnb early fired endAt sD
    rw [hb] at this
    simp at this
  · rcases stepEarlyFired_cases cfg early fired sD with
      ⟨sE, cE, evE, hde, hef2⟩ | ⟨sE, cE, evE, sF2, cF2, evF, abF, hde, hdf, hef2⟩
    · exfalso
      have := dispatchHandles_noabort cfg Phase.early hnb early sD cfg.ambient
      rw [hde] at this
      simp at this
    · have hcomp := dispatchHandles_complete cfg Phase.early early sD cfg.ambient
        (by rw [hde]) hid hmem
      rw [hde] at hcomp
      have hev : evEF = evE ++ evF := by
        have h := hef.symm.trans hef2
        simp only [Prod.mk.injEq] at h
        exact h.2.2.1
      rw [hb, hev]
      rcases hcomp with hsk | ⟨cb, hin⟩
      · exact Or.inl (List.mem_append.mpr (Or.inl (List.mem_append.mpr (Or.inl hsk))))
      · exact Or.inr ⟨cb, List.mem_append.mpr (Or.inl (List.mem_append.mpr (Or.inl hin)))⟩

theorem stepBody_late_complete (cfg : LoopCfg)
    (hnb : ∀ i, cfg.prog i ≠ CbAct.raiseB) (early : List ℕ)
    (fired : List (ℕ × ℕ × ℕ)) (endAt : ℚ) (sD : LoopState) :
    ∀ hid ∈ (pop_pending (stepEarlyFired cfg early fired sD).1 endAt).1,
      Ev.skipCancelled Phase.late hid ∈ (stepBody cfg early fired endAt sD).2.1 ∨
      ∃ cb, Ev.invoke Phase.late (some hid) cb
        ∈ (stepBody cfg early fired endAt sD).2.1 := by
  intro hid hmem
  rcases stepBody_cases cfg early fired endAt sD with
    ⟨sF, cF, evEF, hef, hb⟩ | ⟨sF, cF, evEF, lateL, sG, sH, cH, evL, abL, hef, hpl, hdl, hb⟩
  · exfalso
    have := stepBody_noabort cfg hnb early fired endAt sD
    rw [hb] at this
    simp at this
  · have hmem2 : hid ∈ lateL := by
      rw [hef] at hmem
      simp only at hmem
      rw [hpl] at hmem
      exact hmem
    have habl : abL = false := by
      have := dispatchHandles_noabort cfg Phase.late hnb lateL sG cF
      rw [hdl] at this
      exact this
    have hcomp := dispatchHandles_complete cfg Phase.late lateL sG cF
      (by rw [hdl]; exact habl) hid hmem2
    rw [hdl] at hcomp
    rw [hb]
    rcases hcomp with hsk | ⟨cb, hin⟩
    · exact Or.inl (List.mem_append.mpr (Or.inr hsk))
    · exact Or.inr ⟨cb, List.mem_append.mpr (Or.inr hin)⟩

theorem stepBody_io_filter (cfg : LoopCfg) (early : List ℕ)
    (fired : List (ℕ × ℕ × ℕ)) (endAt : ℚ) (sD : LoopState)
    (hab : (stepBody cfg early fired endAt sD).2.2 = false) :
    ((stepBody cfg early fired endAt sD).2.1).filterMap ioInvokeCb
      = fired.map (fun x => x.1) := by
  rcases stepBody_cases cfg early fired endAt sD with
    ⟨sF, cF, evEF, hef, hb⟩ | ⟨sF, cF, evEF, lateL, sG, sH, cH, evL, abL, hef, hpl, hdl, hb⟩
  · rw [hb] at hab
    simp at hab
  · rcases stepEarlyFired_cases cfg early fired sD with
      ⟨sE, cE, evE, hde, hef2⟩ | ⟨sE, cE, evE, sF2, cF2, evF, abF, hde, hdf, hef2⟩
    · have h := hef.symm.trans hef2
      simp only [Prod.mk.injEq] at h
      exact absurd h.2.2.2.symm (by simp)
    · have h := hef.symm.trans hef2
      simp only [Prod.mk.injEq] at h
      obtain ⟨hsf, hcf, hev, habf⟩ := h
      have habf2 : abF = false := habf.symm
      have h1 : evE.filterMap ioInvokeCb = [] := by
        have := dispatchHandles_io_filter_nil cfg Phase.early (by simp) early sD cfg.ambient
        rw [hde] at this
        exact this
      have h2 : evF.filterMap ioInvokeCb = fired.map (fun x => x.1) := by
        have := dispatchFired_exact cfg fired sE cE (by rw [hdf, habf2])
        rw [hdf] at this
        exact this
      have h3 : evL.filterMap ioInvokeCb = [] := by
        have := dispatchHandles_io_filter_nil cfg Phase.late (by simp) lateL sG cF
        rw [hdl] at this
        exact this
      rw [hb, hev]
      simp only [List.filterMap_append]
      rw [h1, h2, h3]
      simp

/-- C1: in every loop step the timeout passed to selector.select is
the value computed by computeWait from the early batch and the next
scheduler event, and that computation satisfies the claimed cases: a
non-empty early batch gives zero; an empty batch with no next
scheduler event (in particular when no I/O is registered, although the
code reaches this answer without consulting I/O registrations) gives
none, blocking indefinitely; an empty batch with next event d gives
max 0 (d minus a fresh clock reading). -/
theorem c1_select_timeout (cfg : LoopCfg) (s : LoopState) :
    (∃ rest, (run_step cfg s).2.1 = Ev.selectCall (stepPre cfg s).2.1 :: rest) ∧
    (stepPre cfg s).1 = (pop_pending { s with clkIdx := s.clkIdx + 1 }
        (cfg.clock s.clkIdx + cfg.res)).1 ∧
    (stepPre cfg s).2.1 = (computeWait cfg
        (pop_pending { s with clkIdx := s.clkIdx + 1 }
          (cfg.clock s.clkIdx + cfg.res)).1
        (next_event (pop_pending { s with clkIdx := s.clkIdx + 1 }
          (cfg.clock s.clkIdx + cfg.res)).2)
        (pop_pending { s with clkIdx := s.clkIdx + 1 }
          (cfg.clock s.clkIdx + cfg.res)).2).1 ∧
    (∀ early ne s1, early ≠ [] → (computeWait cfg early ne s1).1 = some 0) ∧
    (∀ s1, cfg.ioRegistered = false → (computeWait cfg [] none s1).1 = none) ∧
    (∀ d s1, (computeWait cfg [] (some (some d)) s1).1
        = some (max 0 (d - cfg.clock s1.clkIdx))) := by
  refine ⟨?_, ?_, ?_, ?_, ?_, ?_⟩
  · rw [run_step_eq, stepPre2_eq]
    exact ⟨_, rfl⟩
  · rw [stepPre_eq]
  · rw [stepPre_eq]
  · intro early ne s1 hne
    cases early with
    | nil => exact absurd rfl hne
    | cons a l => simp [computeWait]
  · intro s1 _
    simp [computeWait]
  · intro d s1
    simp [computeWait]

/-- C1 witness: the computed timeout at concrete inputs for each case
of the computation. -/
theorem c1_select_timeout_witness :
    ([0] ≠ ([] : List ℕ) ∧ (computeWait cfg0 [0] none s0).1 = some 0) ∧
    (cfg0.ioRegistered = false ∧ (computeWait cfg0 [] none s0).1 = none) ∧
    (computeWait cfg0 [] (some (some 5)) s0).1
      = some (max 0 (5 - cfg0.clock s0.clkIdx)) :=
  ⟨⟨by decide, (c1_select_timeout cfg0 s0).2.2.2.1 [0] none s0 (by decide)⟩,
   ⟨rfl, (c1_select_timeout cfg0 s0).2.2.2.2.1 s0 rfl⟩,
   (c1_select_timeout cfg0 s0).2.2.2.2.2 5 s0⟩

/-- Loop state holding one enqueued no-deadline handle for callback 0
with empty user context. -/
def sOne : LoopState :=
  { sched := [{ key := none, seq := 0, hid := 0 }],
    handles := [(0, { when := none, callback := 0, args := [], cancelled := false,
                      context := [] })],
    nextHid := 1, nextSeq := 1, clkIdx := 0, cachedNet := none, nextNetId := 0 }

/-- Configuration whose callbacks all read the running-loop slot. -/
def cfgO : LoopCfg := { cfg0 with prog := fun _ => CbAct.observe }

/-- Configuration whose callbacks all raise a non-Exception
BaseException. -/
def cfgB : LoopCfg := { cfg0 with prog := fun _ => CbAct.raiseB }

/-- C9: every callback runs with the running-loop context slot set to
the loop identifier for its duration and restored to the previous
value when it returns or raises: the context coming out of a callback
invocation equals the context going in, any observation made inside a
callback reads the loop identifier, and so does any observation made
anywhere in a loop step (all dispatches of a step thread the single
ambient snapshot captured after the select). -/
theorem c9_running_loop_slot (cfg : LoopCfg) (s : LoopState) :
    (∀ s0 ctx ph ohid cb kw,
        ((invoke_callback cfg s0 ctx ph ohid cb kw).2.1).runningLoop
          = ctx.runningLoop) ∧
    (∀ s0 ctx ph ohid cb kw c2 v,
        Ev.observed c2 v ∈ (invoke_callback cfg s0 ctx ph ohid cb kw).2.2.1 →
        v = some cfg.loopId) ∧
    (∀ c2 v, Ev.observed c2 v ∈ (run_step cfg s).2.1 → v = some cfg.loopId) := by
  refine ⟨?_, ?_, ?_⟩
  · intro s0 ctx ph ohid cb kw
    rw [invoke_callback_ctx_eq]
  · intro s0 ctx ph ohid cb kw c2 v hm
    exact invoke_callback_observed_mem cfg s0 ctx ph ohid cb kw c2 v hm
  · intro c2 v hm
    rw [run_step_eq] at hm
    rcases List.mem_cons.mp hm with he | hm2
    · exact absurd he (by simp)
    · exact stepBody_observed_mem cfg _ _ _ _ c2 v hm2

/-- C9 witness: an observing callback dispatched by a concrete step
reads the loop identifier, and the slot of a concrete context is
restored after an invocation. -/
theorem c9_running_loop_slot_witness :
    (Ev.observed 0 (some 7) ∈ (run_step cfgO sOne).2.1 ∧
      some 7 = some cfgO.loopId) ∧
    ((invoke_callback cfgO s0 { runningLoop := some 3 } Phase.early none 0 []).2.1).runningLoop
      = ({ runningLoop := some 3 } : Ctx).runningLoop :=
  ⟨⟨by decide, (c9_running_loop_slot cfgO sOne).2.2 0 (some 7) (by decide)⟩,
   (c9_running_loop_slot cfgO s0).1 s0 { runningLoop := some 3 } Phase.early none 0 []⟩

/-- C7: a non-Exception BaseException raised by a callback is reported
to the exception handler and then re-raised (the invocation returns
the propagation flag after emitting the handler call), an aborting
step always contains such a handler report in its trace, an aborting
step makes run itself propagate, and when no callback raises a
BaseException neither the step nor run ever aborts (ordinary
Exceptions never propagate out of the step). -/
theorem c7_base_exception_propagation (cfg : LoopCfg) :
    (∀ s0 ctx ph ohid cb kw, cfg.prog cb = CbAct.raiseB →
        invoke_callback cfg s0 ctx ph ohid cb kw
          = (s0, ctx, [Ev.invoke ph ohid cb, Ev.handlerCall cb kw true], true)) ∧
    (∀ s0, (run_step cfg s0).2.2 = true →
        ∃ c2 kw2, Ev.handlerCall c2 kw2 true ∈ (run_step cfg s0).2.1) ∧
    (∀ s0 n, (run_step cfg s0).2.2 = true → (run_loop cfg (n + 1) s0).2.2 = true) ∧
    ((∀ i, cfg.prog i ≠ CbAct.raiseB) →
        (∀ s0, (run_step cfg s0).2.2 = false) ∧
        (∀ n s0, (run_loop cfg n s0).2.2 = false)) := by
  refine ⟨?_, ?_, ?_, ?_⟩
  · intro s0 ctx ph ohid cb kw hp
    exact invoke_callback_eq_raiseB cfg s0 ctx ph ohid cb kw hp
  · intro s0 hab
    rw [run_step_eq] at hab ⊢
    rcases stepBody_abort_handler cfg _ _ _ _ hab with ⟨c2, kw2, hmem⟩
    exact ⟨c2, kw2, List.mem_cons_of_mem _ hmem⟩
  · intro s0 n hab
    rcases hr : run_step cfg s0 with ⟨s1, tr, ab⟩
    rw [hr] at hab
    have hab2 : ab = true := hab
    rw [hab2] at hr
    simp [run_loop, hr]
  · intro hnb
    have h1 : ∀ s0, (run_step cfg s0).2.2 = false := by
      intro s0
      rw [run_step_eq]
      exact stepBody_noabort cfg hnb _ _ _ _
    refine ⟨h1, ?_⟩
    intro n
    induction n with
    | zero => intro s0; simp [run_loop]
    | succ m ih =>
        intro s0
        have hf := h1 s0
        rcases hr : run_step cfg s0 with ⟨s1, tr, ab⟩
        rw [hr] at hf
        have hf2 : ab = false := hf
        rw [hf2] at hr
        by_cases hdone : cfg.doneFn s1
        · simp [run_loop, hr, hdone]
        · rcases hrl : run_loop cfg m s1 with ⟨s2, tr2, ab2⟩
          have := ih s1
          rw [hrl] at this
          simp [run_loop, hr, hdone, hrl]
          exact this
  
/-- C7 witness: a concrete BaseException-raising callback is reported
then re-raised, and a concrete configuration with no BaseException
callbacks never aborts a step. -/
theorem c7_base_exception_propagation_witness :
    (cfgB.prog 0 = CbAct.raiseB ∧
      invoke_callback cfgB s0 { runningLoop := none } Phase.early none 0 []
        = (s0, { runningLoop := none },
           [Ev.invoke Phase.early none 0, Ev.handlerCall 0 [] true], true)) ∧
    ((∀ i, cfg0.prog i ≠ CbAct.raiseB) ∧ (run_step cfg0 s0).2.2 = false) :=
  ⟨⟨rfl, (c7_base_exception_propagation cfgB).1 s0 { runningLoop := none }
      Phase.early none 0 [] rfl⟩,
   ⟨fun i h => by simp [cfg0] at h,
    ((c7_base_exception_propagation cfg0).2.2.2 (fun i h => by simp [cfg0] at h)).1 s0⟩⟩

theorem getHandle_cancelled_mem (hs : List (ℕ × Handle)) (hid : ℕ)
    (hc : (getHandle hs hid).cancelled = true) : ∃ p ∈ hs, p.1 = hid := by
  induction hs with
  | nil => simp [getHandle, dummyHandle] at hc
  | cons p rest ih =>
      by_cases hp : p.1 = hid
      · exact ⟨p, List.mem_cons_self _ _, hp⟩
      · simp only [getHandle, if_neg hp] at hc
        rcases ih hc with ⟨q, hq, he⟩
        exact ⟨q, List.mem_cons_of_mem _ hq, he⟩

/-- C5: a handle whose cancelled flag is set at its dispatch point is
dropped with no callback invocation (only the skip is logged, state
and context unchanged), and in a well-formed state a handle already
cancelled when the step begins is never invoked anywhere in that step,
even though mid-step enqueues and cancellations may occur. -/
theorem c5_cancelled_never_invoked (cfg : LoopCfg) (s : LoopState)
    (hinv : LoopInv s) (hid : ℕ)
    (hc : (getHandle s.handles hid).cancelled = true) :
    (∀ s0 ctx ph, (getHandle s0.handles hid).cancelled = true →
        invoke_handle cfg s0 ctx ph hid
          = (s0, ctx, [Ev.skipCancelled ph hid], false)) ∧
    (∀ ph cb, Ev.invoke ph (some hid) cb ∉ (run_step cfg s).2.1) := by
  constructor
  · intro s0 ctx ph hc0
    simp [invoke_handle, hc0]
  · intro ph cb hmem
    rw [run_step_eq] at hmem
    rcases List.mem_cons.mp hmem with he | hm2
    · exact absurd he (by simp)
    · rcases getHandle_cancelled_mem s.handles hid hc with ⟨p, hp, hpe⟩
      have hlt : hid < s.nextHid := hpe ▸ hinv.1 p hp
      rcases stepBody_invoke_mem cfg _ _ _ _ ph hid cb hm2 with
        ⟨_, hearly⟩ | ⟨_, sF, cF, evEF, hef, hlate⟩
      · have heq : (stepPre2 cfg s).1
            = (pop_pending { s with clkIdx := s.clkIdx + 1 }
                (cfg.clock s.clkIdx + cfg.res)).1 := by
          rw [stepPre2_eq, stepPre_eq]
        rw [heq] at hearly
        rcases pop_pending_mem _ _ _ hearly with ⟨hcf, _⟩
        have hcf2 : (getHandle s.handles hid).cancelled = false := hcf
        rw [hc] at hcf2
        exact absurd hcf2 (by simp)
      · rcases pop_pending_mem _ _ _ hlate with ⟨hcf, _⟩
        have hev : Evolve s sF := by
          have h1 := evolve_stepPre2 cfg s
          have h2 := evolve_stepEarlyFired cfg (stepPre2 cfg s).1
            (cfg.selectFn (stepPre2 cfg s).2.1) (stepPre2 cfg s).2.2.2
          rw [hef] at h2
          exact evolve_trans h1 h2
        have hcT := hev.2.2 hid hlt hc
        rw [hcT] at hcf
        exact absurd hcf (by simp)

/-- Loop state holding one enqueued handle for callback 0 whose
cancelled flag is already set. -/
def sCan : LoopState :=
  { sched := [{ key := none, seq := 0, hid := 0 }],
    handles := [(0, { when := none, callback := 0, args := [], cancelled := true,
                      context := [] })],
    nextHid := 1, nextSeq := 1, clkIdx := 0, cachedNet := none, nextNetId := 0 }

/-- C5 witness: a concrete cancelled handle is dropped at dispatch and
never invoked during a concrete step. -/
theorem c5_cancelled_never_invoked_witness :
    (LoopInv sCan ∧ (getHandle sCan.handles 0).cancelled = true) ∧
    invoke_handle cfg0 sCan { runningLoop := none } Phase.early 0
      = (sCan, { runningLoop := none }, [Ev.skipCancelled Phase.early 0], false) ∧
    (∀ ph cb, Ev.invoke ph (some 0) cb ∉ (run_step cfg0 sCan).2.1) := by
  have hinv : LoopInv sCan := ⟨by decide, by decide, by decide⟩
  have hc : (getHandle sCan.handles 0).cancelled = true := by decide
  exact ⟨⟨hinv, hc⟩,
    (c5_cancelled_never_invoked cfg0 sCan hinv 0 hc).1 sCan { runningLoop := none }
      Phase.early hc,
    (c5_cancelled_never_invoked cfg0 sCan hinv 0 hc).2⟩

/-- Configuration in which callback 0 calls call_soon(1) and every
other callback returns normally. -/
def cfgS : LoopCfg :=
  { cfg0 with prog := fun n => if n = 0 then CbAct.callSoon 1 [] else CbAct.ret }

/-- C3 counterexample: starting from a state holding only handle 0
(for callback 0, which calls call_soon targeting callback 1), the step
trace shows that the handle created by that call_soon during the early
phase (handle 1, which did not exist before the step, the fresh
counter being 1) is invoked in the late phase of the very same step,
refuting that a handle enqueued by call_soon from inside a callback is
never invoked in the same step. -/
theorem c3_same_step_counterexample :
    cfgS.prog 0 = CbAct.callSoon 1 [] ∧
    sOne.nextHid = 1 ∧
    (run_step cfgS sOne).2.1
      = [Ev.selectCall (some 0), Ev.invoke Phase.early (some 0) 0,
         Ev.invoke Phase.late (some 1) 1] ∧
    (getHandle (run_step cfgS sOne).1.handles 1).callback = 1 := by
  refine ⟨rfl, rfl, by decide, by decide⟩

/-- C3 amended: call_soon hands out the current fresh identifier, and
any handle identifier not yet issued when the late batch is popped
(after the early and I/O dispatches) is never invoked in that step; in
particular a handle enqueued by call_soon from a late-phase callback
runs only in a later step, while call_soon from an early-timer or I/O
callback is dispatched in the same step, in the late phase. -/
theorem c3_late_callsoon_next_step (cfg : LoopCfg) (s : LoopState)
    (hinv : LoopInv s) :
    (∀ s0 t a c, (call_soon s0 t a c).2 = s0.nextHid) ∧
    (∀ sF cF evEF abEF,
        stepEarlyFired cfg (stepPre2 cfg s).1 (cfg.selectFn (stepPre2 cfg s).2.1)
            (stepPre2 cfg s).2.2.2 = (sF, cF, evEF, abEF) →
        ∀ hid, sF.nextHid ≤ hid →
          ∀ ph cb, Ev.invoke ph (some hid) cb ∉ (run_step cfg s).2.1) := by
  constructor
  · intro s0 t a c
    rfl
  · intro sF cF evEF abEF hef hid hle ph cb hmem
    have hevF : Evolve s sF := by
      have h1 := evolve_stepPre2 cfg s
      have h2 := evolve_stepEarlyFired cfg (stepPre2 cfg s).1
        (cfg.selectFn (stepPre2 cfg s).2.1) (stepPre2 cfg s).2.2.2
      rw [hef] at h2
      exact evolve_trans h1 h2
    rw [run_step_eq] at hmem
    rcases List.mem_cons.mp hmem with he | hm2
    · exact absurd he (by simp)
    rcases stepBody_invoke_mem cfg _ _ _ _ ph hid cb hm2 with
      ⟨_, hearly⟩ | ⟨_, sF2, cF2, evEF2, hef2, hlate⟩
    · have heq : (stepPre2 cfg s).1
          = (pop_pending { s with clkIdx := s.clkIdx + 1 }
              (cfg.clock s.clkIdx + cfg.res)).1 := by
        rw [stepPre2_eq, stepPre_eq]
      rw [heq] at hearly
      rcases pop_pending_mem _ _ _ hearly with ⟨_, e, hmem3, heid, _⟩
      have hlt : hid < s.nextHid := heid ▸ hinv.2.1 e hmem3
      have : hid < sF.nextHid := lt_of_lt_of_le hlt hevF.1
      omega
    · have hsame : sF2 = sF := by
        have h := hef.symm.trans hef2
        simp only [Prod.mk.injEq] at h
        exact h.1.symm
      rw [hsame] at hlate
      have hinvF : LoopInv sF := by
        have h1 := inv_stepPre2 cfg s hinv
        have h2 := inv_stepEarlyFired cfg (stepPre2 cfg s).1
          (cfg.selectFn (stepPre2 cfg s).2.1) (stepPre2 cfg s).2.2.2 h1
        rw [hef] at h2
        exact h2
      rcases pop_pending_mem _ _ _ hlate with ⟨_, e, hmem3, heid, _⟩
      have hlt : hid < sF.nextHid := heid ▸ hinvF.2.1 e hmem3
      omega

/-- C3 amended witness: in a concrete step, call_soon returns the
fresh identifier and a not-yet-issued identifier is never invoked. -/
theorem c3_late_callsoon_next_step_witness :
    LoopInv sOne ∧
    (call_soon s0 3 [] none).2 = s0.nextHid ∧
    (∀ ph cb, Ev.invoke ph (some 5) cb ∉ (run_step cfg0 sOne).2.1) := by
  have hinv : LoopInv sOne := ⟨by decide, by decide, by decide⟩
  refine ⟨hinv, (c3_late_callsoon_next_step cfg0 sOne hinv).1 s0 3 [] none, ?_⟩
  exact (c3_late_callsoon_next_step cfg0 sOne hinv).2 _ _ _ _ rfl 5 (by decide)

/-- C2: within a single loop step the dispatches occur early timers
first, then I/O callbacks, then late timers (the phase sequence of the
invocations in the trace is monotone); every early-phase invocation is
of a handle popped due at the cutoff t0 plus resolution, every
late-phase invocation is of a handle due at the late cutoff (the
after-select clock reading plus resolution), and, when the step does
not abort, the I/O invocations are exactly the callbacks returned by
select, in order. -/
theorem c2_dispatch_order (cfg : LoopCfg) (s : LoopState) (hinv : LoopInv s) :
    ((run_step cfg s).2.1.filterMap evPhase).Pairwise
      (fun a b => phaseIdx a ≤ phaseIdx b) ∧
    (∀ hid cb, Ev.invoke Phase.early (some hid) cb ∈ (run_step cfg s).2.1 →
        keyLE (getHandle (run_step cfg s).1.handles hid).when
          (some (cfg.clock s.clkIdx + cfg.res)) = true) ∧
    (∀ hid cb, Ev.invoke Phase.late (some hid) cb ∈ (run_step cfg s).2.1 →
        keyLE (getHandle (run_step cfg s).1.handles hid).when
          (some (stepPre2 cfg s).2.2.1) = true) ∧
    ((run_step cfg s).2.2 = false →
        (run_step cfg s).2.1.filterMap ioInvokeCb
          = (cfg.selectFn (stepPre cfg s).2.1).map (fun x => x.1)) := by
  refine ⟨?_, ?_, ?_, ?_⟩
  · rw [run_step_eq]
    have hsel : evPhase (Ev.selectCall (stepPre2 cfg s).2.1) = none := rfl
    rw [List.filterMap_cons_none hsel]
    exact stepBody_phase_pairwise cfg _ _ _ _
  · intro hid cb hmem
    rw [run_step_eq] at hmem
    rcases List.mem_cons.mp hmem with he | hm2
    · exact absurd he (by simp)
    rcases stepBody_invoke_mem cfg _ _ _ _ Phase.early hid cb hm2 with
      ⟨_, hearly⟩ | ⟨hph, _⟩
    · have heq : (stepPre2 cfg s).1
          = (pop_pending { s with clkIdx := s.clkIdx + 1 }
              (cfg.clock s.clkIdx + cfg.res)).1 := by
        rw [stepPre2_eq, stepPre_eq]
      rw [heq] at hearly
      rcases pop_pending_mem _ _ _ hearly with ⟨_, e, hmem3, heid, hdue⟩
      have hkey : e.key = (getHandle s.handles e.hid).when := hinv.2.2 e hmem3
      have hlt : hid < s.nextHid := heid ▸ hinv.2.1 e hmem3
      have hwhen : (getHandle (run_step cfg s).1.handles hid).when
          = (getHandle s.handles hid).when := (evolve_run_step cfg s).2.1 hid hlt
      rw [hwhen, ← heid, ← hkey]
      exact hdue
    · exact absurd hph (by simp)
  · intro hid cb hmem
    rw [run_step_eq] at hmem
    rcases List.mem_cons.mp hmem with he | hm2
    · exact absurd he (by simp)
    rcases stepBody_invoke_mem cfg _ _ _ _ Phase.late hid cb hm2 with
      ⟨hph, _⟩ | ⟨_, sF, cF, evEF, hef, hlate⟩
    · exact absurd hph (by simp)
    · have hinvF : LoopInv sF := by
        have h1 := inv_stepPre2 cfg s hinv
        have h2 := inv_stepEarlyFired cfg (stepPre2 cfg s).1
          (cfg.selectFn (stepPre2 cfg s).2.1) (stepPre2 cfg s).2.2.2 h1
        rw [hef] at h2
        exact h2
      rcases pop_pending_mem _ _ _ hlate with ⟨_, e, hmem3, heid, hdue⟩
      have hkey : e.key = (getHandle sF.handles e.hid).when := hinvF.2.2 e hmem3
      have hlt : hid < sF.nextHid := heid ▸ hinvF.2.1 e hmem3
      have hevH : Evolve sF (run_step cfg s).1 := by
        rcases stepBody_cases cfg (stepPre2 cfg s).1 (cfg.selectFn (stepPre2 cfg s).2.1)
            (stepPre2 cfg s).2.2.1 (stepPre2 cfg s).2.2.2 with
          ⟨sF2, cF2, evEF2, hef2, hb⟩ |
          ⟨sF2, cF2, evEF2, lateL, sG, sH, cH, evL, abL, hef2, hpl, hdl, hb⟩
        · have h := hef.symm.trans hef2
          simp only [Prod.mk.injEq] at h
          exact absurd h.2.2.2 (by simp)
        · have hsame : sF = sF2 := by
            have h := hef.symm.trans hef2
            simp only [Prod.mk.injEq] at h
            exact h.1
          have he1 : Evolve sF2 sG := by
            have := evolve_pop_pending sF2 (stepPre2 cfg s).2.2.1
            rw [hpl] at this
            exact this
          have he2 : Evolve sG sH := by
            have := evolve_dispatchHandles cfg Phase.late lateL sG cF2
            rw [hdl] at this
            exact this
          have hfin : (run_step cfg s).1 = sH := by
            rw [run_step_eq, hb]
          rw [hfin, hsame]
          exact evolve_trans he1 he2
      have hwhen : (getHandle (run_step cfg s).1.handles hid).when
          = (getHandle sF.handles hid).when := hevH.2.1 hid hlt
      rw [hwhen, ← heid, ← hkey]
      exact hdue
  · intro hab
    rw [run_step_eq] at hab ⊢
    have hsel : ioInvokeCb (Ev.selectCall (stepPre2 cfg s).2.1) = none := rfl
    rw [List.filterMap_cons_none hsel]
    have := stepBody_io_filter cfg (stepPre2 cfg s).1 (cfg.selectFn (stepPre2 cfg s).2.1)
      (stepPre2 cfg s).2.2.1 (stepPre2 cfg s).2.2.2 hab
    rw [this, stepPre2_eq]

/-- C2 witness: phase monotonicity and the I/O exactness at a concrete
step with one early handle and no fired I/O. -/
theorem c2_dispatch_order_witness :
    LoopInv sOne ∧
    ((run_step cfg0 sOne).2.1.filterMap evPhase).Pairwise
      (fun a b => phaseIdx a ≤ phaseIdx b) ∧
    ((run_step cfg0 sOne).2.2 = false ∧
      (run_step cfg0 sOne).2.1.filterMap ioInvokeCb
        = (cfg0.selectFn (stepPre cfg0 sOne).2.1).map (fun x => x.1)) := by
  have hinv : LoopInv sOne := ⟨by decide, by decide, by decide⟩
  refine ⟨hinv, (c2_dispatch_order cfg0 sOne hinv).1, by decide,
    (c2_dispatch_order cfg0 sOne hinv).2.2.2 (by decide)⟩

/-- Configuration whose callbacks all raise an ordinary Exception. -/
def cfgE : LoopCfg := { cfg0 with prog := fun _ => CbAct.raiseE }

/-- Loop state holding one enqueued handle for callback 0 carrying the
non-empty user context map [7]. -/
def sCtx : LoopState :=
  { sched := [{ key := none, seq := 0, hid := 0 }],
    handles := [(0, { when := none, callback := 0, args := [], cancelled := false,
                      context := [7] })],
    nextHid := 1, nextSeq := 1, clkIdx := 0, cachedNet := none, nextNetId := 0 }

/-- C6 counterexample: a timer handle carrying user context [7] whose
callback raises an Exception produces a handler invocation whose
keyword context is empty: _invoke_handle passes only the callback and
its args, never the Handle context field, so the handler does not
receive the user context, refuting the parenthetical of the claim. -/
theorem c6_context_not_forwarded_counterexample :
    (getHandle sCtx.handles 0).context = [7] ∧
    cfgE.prog 0 = CbAct.raiseE ∧
    (run_step cfgE sCtx).2.1
      = [Ev.selectCall (some 0), Ev.invoke Phase.early (some 0) 0,
         Ev.handlerCall 0 [] false] ∧
    ([] : List ℕ) ≠ [7] := by
  refine ⟨by decide, rfl, by decide, by decide⟩

/-- C6 amended: a callback that raises an Exception is reported to the
exception handler exactly once with the callback but without the user
context of its handle (for I/O callbacks the loop passes the fd and
event details instead), the step does not abort, and every other
callback of the step still executes: under a table with no
BaseException callbacks the abort flag is false, handler invocations
are in one-to-one correspondence with raising invocations, every
handler invocation in the trace comes from an Exception-raising
callback, every popped early and late handle is invoked or skipped,
and the I/O callbacks returned by select are all invoked. -/
theorem c6_exception_isolation (cfg : LoopCfg) (s : LoopState)
    (hnb : ∀ i, cfg.prog i ≠ CbAct.raiseB) :
    (∀ s0 ctx ph ohid cb kw, cfg.prog cb = CbAct.raiseE →
        invoke_callback cfg s0 ctx ph ohid cb kw
          = (s0, ctx, [Ev.invoke ph ohid cb, Ev.handlerCall cb kw false], false)) ∧
    (run_step cfg s).2.2 = false ∧
    ((run_step cfg s).2.1.countP isHandlerB
        = (run_step cfg s).2.1.countP (raisingB cfg)) ∧
    (∀ c2 kw2 b, Ev.handlerCall c2 kw2 b ∈ (run_step cfg s).2.1 →
        b = false ∧ cfg.prog c2 = CbAct.raiseE) ∧
    (∀ hid ∈ (stepPre cfg s).1,
        Ev.skipCancelled Phase.early hid ∈ (run_step cfg s).2.1 ∨
        ∃ cb, Ev.invoke Phase.early (some hid) cb ∈ (run_step cfg s).2.1) ∧
    (∀ hid ∈ (pop_pending (stepEarlyFired cfg (stepPre2 cfg s).1
          (cfg.selectFn (stepPre2 cfg s).2.1) (stepPre2 cfg s).2.2.2).1
          (stepPre2 cfg s).2.2.1).1,
        Ev.skipCancelled Phase.late hid ∈ (run_step cfg s).2.1 ∨
        ∃ cb, Ev.invoke Phase.late (some hid) cb ∈ (run_step cfg s).2.1) ∧
    ((run_step cfg s).2.1.filterMap ioInvokeCb
        = (cfg.selectFn (stepPre cfg s).2.1).map (fun x => x.1)) := by
  refine ⟨?_, ?_, ?_, ?_, ?_, ?_, ?_⟩
  · intro s0 ctx ph ohid cb kw hp
    exact invoke_callback_eq_raiseE cfg s0 ctx ph ohid cb kw hp
  · rw [run_step_eq]
    exact stepBody_noabort cfg hnb _ _ _ _
  · rw [run_step_eq]
    have h := stepBody_count cfg (stepPre2 cfg s).1 (cfg.selectFn (stepPre2 cfg s).2.1)
      (stepPre2 cfg s).2.2.1 (stepPre2 cfg s).2.2.2
    simp only [List.countP_cons]
    simpa [isHandlerB, raisingB] using h
  · intro c2 kw2 b hmem
    rw [run_step_eq] at hmem
    rcases List.mem_cons.mp hmem with he | hm2
    · exact absurd he (by simp)
    rcases stepBody_handler_mem cfg _ _ _ _ c2 kw2 b hm2 with ⟨hb, hpr⟩ | ⟨hb, hpr⟩
    · exact ⟨hb, hpr⟩
    · exact absurd hpr (hnb c2)
  · intro hid hmem
    have heq : (stepPre cfg s).1 = (stepPre2 cfg s).1 := by rw [stepPre2_eq]
    rw [heq] at hmem
    have := stepBody_early_complete cfg hnb (stepPre2 cfg s).1
      (cfg.selectFn (stepPre2 cfg s).2.1) (stepPre2 cfg s).2.2.1
      (stepPre2 cfg s).2.2.2 hid hmem
    rw [run_step_eq]
    rcases this with hsk | ⟨cb, hin⟩
    · exact Or.inl (List.mem_cons_of_mem _ hsk)
    · exact Or.inr ⟨cb, List.mem_cons_of_mem _ hin⟩
  · intro hid hmem
    have := stepBody_late_complete cfg hnb (stepPre2 cfg s).1
      (cfg.selectFn (stepPre2 cfg s).2.1) (stepPre2 cfg s).2.2.1
      (stepPre2 cfg s).2.2.2 hid hmem
    rw [run_step_eq]
    rcases this with hsk | ⟨cb, hin⟩
    · exact Or.inl (List.mem_cons_of_mem _ hsk)
    · exact Or.inr ⟨cb, List.mem_cons_of_mem _ hin⟩
  · rw [run_step_eq]
    have hsel : ioInvokeCb (Ev.selectCall (stepPre2 cfg s).2.1) = none := rfl
    rw [List.filterMap_cons_none hsel]
    have := stepBody_io_filter cfg (stepPre2 cfg s).1 (cfg.selectFn (stepPre2 cfg s).2.1)
      (stepPre2 cfg s).2.2.1 (stepPre2 cfg s).2.2.2
      (stepBody_noabort cfg hnb _ _ _ _)
    rw [this, stepPre2_eq]

/-- C6 amended witness: a concrete Exception-raising callback is
reported once without aborting the concrete step. -/
theorem c6_exception_isolation_witness :
    ((∀ i, cfgE.prog i ≠ CbAct.raiseB) ∧ (run_step cfgE sCtx).2.2 = false) ∧
    (cfgE.prog 0 = CbAct.raiseE ∧
      invoke_callback cfgE s0 { runningLoop := none } Phase.early none 0 []
        = (s0, { runningLoop := none },
           [Ev.invoke Phase.early none 0, Ev.handlerCall 0 [] false], false)) := by
  have hnb : ∀ i, cfgE.prog i ≠ CbAct.raiseB := fun i h => by simp [cfgE] at h
  exact ⟨⟨hnb, (c6_exception_isolation cfgE sCtx hnb).2.1⟩,
    ⟨rfl, (c6_exception_isolation cfgE sCtx hnb).1 s0 { runningLoop := none }
      Phase.early none 0 [] rfl⟩⟩
